import Mathlib

/-!
Verification of the obligation lifecycle and dependency engine of `src/main.py`
(status transition engine, dependency resolver, override ledger, proof gate,
deadlock and stuck detection, severity classification, unblock propagation).

Shallow embedding conventions:
* timestamps (`datetime` values in the source) are modelled as `Int` seconds;
  `days_remaining = (deadline - now).total_seconds() / 86400`, so a comparison
  `days_remaining ≤ k` is modelled as `deadline - now ≤ k * 86400`;
* database tables are Lean lists carried in a `DB` structure; reads are list
  filters, writes produce a new `DB`;
* HTTP error responses (`HTTPException`) are the constructors of `UpdateErr`,
  returned through `Except`.
-/

namespace Spec2Proof

/-- Obligation record, following the columns of the `obligations` table that
the core logic of `src/main.py` reads: id, user_id, type, title, source_ref,
status, deadline, proof_required. -/
structure Obligation where
  id : Nat
  userId : Nat
  otype : String
  title : String
  sourceRef : String
  status : String
  deadline : Option Int
  proofRequired : Bool
deriving DecidableEq, Repr

/-- History event appended by `_propagate_unblock` (table `obligation_history`). -/
structure HistEvent where
  obligationId : Nat
  userId : Nat
  eventType : String
  reason : String
  actorUserId : Nat
deriving DecidableEq, Repr

/-- In-memory model of the persistent store.  `deps` holds rows
`(obligation_id, depends_on_obligation_id)` of `obligation_dependencies`,
`overrides` holds rows `(obligation_id, overridden_dependency_id)` of
`obligation_overrides`, `proofs` holds the `obligation_id` column of
`obligation_proofs` (one entry per proof row), `steps` holds rows
`(obligation_id, status)` of `obligation_steps`. -/
structure DB where
  obligations : List Obligation
  deps : List (Nat × Nat)
  overrides : List (Nat × Nat)
  proofs : List Nat
  steps : List (Nat × String)
  history : List HistEvent
deriving DecidableEq, Repr

/-- The `_OBLIGATION_STATUSES` set of `src/main.py`. -/
def _OBLIGATION_STATUSES : List String :=
  ["pending", "submitted", "verified", "blocked", "failed"]

/-- The `_STUCK_REASONS` taxonomy of `src/main.py` (lines 4823-4829). -/
def _STUCK_REASONS : List String :=
  ["unmet_dependency", "overridden_dependency", "missing_proof",
   "external_verification_pending", "hard_deadline_passed"]

/-- The static `OBLIGATION_DEPENDENCY_MAP` of `src/main.py` as a function
(`dict.get(t, [])`). -/
def OBLIGATION_DEPENDENCY_MAP (t : String) : List String :=
  if t = "APPLICATION_SUBMISSION" then ["APPLICATION_FEE"]
  else if t = "HOUSING_DEPOSIT" then ["ACCEPTANCE"]
  else if t = "SCHOLARSHIP_DISBURSEMENT" then ["SCHOLARSHIP"]
  else if t = "ENROLLMENT" then ["FAFSA"]
  else if t = "SCHOLARSHIP_ACCEPTANCE" then ["ACCEPTANCE"]
  else []

/-- The `PROPAGATION_RULES` map of `src/main.py` as a function. -/
def PROPAGATION_RULES (t : String) : List String :=
  if t = "APPLICATION_SUBMISSION" then ["HOUSING_DEPOSIT"]
  else if t = "FAFSA" then ["SCHOLARSHIP"]
  else []

/-- Helper for `_extract_school_context`: Python's `str.split(":")` on the
character list of a string. -/
def splitColonAux : List Char → List Char → List String
  | [], acc => [String.mk acc.reverse]
  | c :: rest, acc =>
    if c = ':' then String.mk acc.reverse :: splitColonAux rest []
    else splitColonAux rest (c :: acc)

/-- Python's `source_ref.split(":")`. -/
def splitColon (s : String) : List String :=
  splitColonAux s.toList []

/-- Model of `_extract_school_context` (src/main.py lines 4274-4290): empty
`source_ref` gives `None`; a `source_ref` starting with `school:` gives the
second `:`-separated field; anything else gives `None`.  A string starting
with `school:` always splits into at least two parts. -/
def _extract_school_context (sourceRef : String) : Option String :=
  if sourceRef = "" then none
  else if ("school:".toList).isPrefixOf sourceRef.toList then
    match splitColon sourceRef with
    | _ :: p :: _ => some p
    | _ => none
  else none

/-- Model of `_obligation_school_key`: `ctx or "__no_school__"` — both `None`
and the empty string fall back to the sentinel bucket. -/
def _obligation_school_key (o : Obligation) : String :=
  match _extract_school_context o.sourceRef with
  | some c => if c = "" then "__no_school__" else c
  | none => "__no_school__"

/-! ## Severity classifier (`_compute_severity`, src/main.py lines 4856-4910) -/

/-- Model of `_compute_severity`.  The rules over `days_remaining` are stated
over seconds: `days_remaining < 0` is `dl - now < 0`, `days_remaining ≤ k`
is `dl - now ≤ k * 86400`.  The `Option`-valued `hit` mirrors the control
flow of the Python `if deadline:` block falling through to rules 7/8. -/
def _compute_severity (status : String) (deadline : Option Int) (stuck : Bool)
    (now : Int) : String × String :=
  if status = "verified" then ("normal", "verified")
  else if status = "failed" then ("failed", "deadline_passed")
  else
    let hit : Option (String × String) :=
      match deadline with
      | some dl =>
        if dl - now < 0 then some ("failed", "deadline_passed")
        else if dl - now ≤ 3 * 86400 ∧ stuck = true then
          some ("critical", "stuck_deadline_imminent")
        else if dl - now ≤ 3 * 86400 then some ("high", "deadline_imminent")
        else if stuck = true ∧ dl - now ≤ 7 * 86400 then
          some ("high", "stuck_deadline_approaching")
        else if dl - now ≤ 14 * 86400 then some ("elevated", "deadline_approaching")
        else none
      | none => none
    match hit with
    | some r => r
    | none =>
      if stuck = true then ("elevated", "stuck_no_deadline_pressure")
      else ("normal", "no_pressure")

/-- Modelled from the spec: the ordered rule list of §4.6 (Severity
Classifier), written rule by rule as the spec states it, to be compared with
the implementation `_compute_severity`.  Rules 3-7 of the spec presuppose a
deadline; rules 8-9 apply when no earlier rule matched. -/
def severitySpecRules (status : String) (deadline : Option Int) (stuck : Bool)
    (now : Int) : String × String :=
  if status = "verified" then ("normal", "verified")
  else if status = "failed" then ("failed", "deadline_passed")
  else
    match deadline with
    | some dl =>
      if dl - now < 0 then ("failed", "deadline_passed")
      else if dl - now ≤ 3 * 86400 ∧ stuck = true then
        ("critical", "stuck_deadline_imminent")
      else if dl - now ≤ 3 * 86400 then ("high", "deadline_imminent")
      else if stuck = true ∧ dl - now ≤ 7 * 86400 then
        ("high", "stuck_deadline_approaching")
      else if dl - now ≤ 14 * 86400 then ("elevated", "deadline_approaching")
      else if stuck = true then ("elevated", "stuck_no_deadline_pressure")
      else ("normal", "no_pressure")
    | none =>
      if stuck = true then ("elevated", "stuck_no_deadline_pressure")
      else ("normal", "no_pressure")

/-! ## Stuck reason classification (src/main.py lines 5253-5274) -/

/-- The constant `STALE_DAYS` of `src/main.py`. -/
def STALE_DAYS : Nat := 5

/-- Model of the dominant stuck-reason chain of `detect_stuck_obligations`
(src/main.py lines 5254-5271): an `if/elif` cascade over the five blocking
conditions; the deadlock branch assigns the string `"unmet_dependency"`. -/
def classify_stuck_reason (isDeadlock deadlinePassed hasUnmetDeps needsProof
    hasOverriddenDepsOnly : Bool) : Option String :=
  if isDeadlock then some "unmet_dependency"
  else if deadlinePassed then some "hard_deadline_passed"
  else if hasUnmetDeps then some "unmet_dependency"
  else if needsProof then some "missing_proof"
  else if hasOverriddenDepsOnly then some "overridden_dependency"
  else none

/-- Model of `is_stuck = is_structurally_blocked and days_since >= STALE_DAYS`
(src/main.py line 5274); `is_structurally_blocked` is set exactly when a
branch of the reason cascade fires. -/
def is_stuck (isDeadlock deadlinePassed hasUnmetDeps needsProof
    hasOverriddenDepsOnly : Bool) (daysSince : Nat) : Bool :=
  (classify_stuck_reason isDeadlock deadlinePassed hasUnmetDeps needsProof
    hasOverriddenDepsOnly).isSome && decide (daysSince ≥ STALE_DAYS)

/-- Model of `should_mark_failed` (src/main.py line 5291): the stuck batch
writes `status = "failed"` only when severity resolved to failed and the
current status is neither failed nor verified. -/
def should_mark_failed (status : String) (sevLevel : String) : Bool :=
  decide (sevLevel = "failed") &&
    !(decide (status = "failed") || decide (status = "verified"))

/-! ## Status transition engine (`update_obligation_status`, src/main.py
lines 2961-3109) and unblock propagation (lines 4324-4401) -/

/-- Error taxonomy of `update_obligation_status`: each constructor is one
`HTTPException` raise site.  Constructors other than `invalidStatus` (400)
and `notFound` (404) carry status code 409 (ConflictError). -/
inductive UpdateErr where
  | invalidStatus
  | notFound
  | irreversible (cur : String)
  | verifiedCannotFail
  | noDeadline
  | deadlineNotPassed
  | unmetDependencies (blockers : List (String × String × String))
  | missingProof
  | incompleteSteps
deriving DecidableEq, Repr

/-- ConflictError predicate: the 409 raise sites of `update_obligation_status`. -/
def UpdateErr.isConflict : UpdateErr → Bool
  | .invalidStatus => false
  | .notFound => false
  | _ => true

/-- Ownership-scoped single-row fetch of an obligation
(`.eq("id", obligation_id).eq("user_id", request.user_id).single()`). -/
def findObligation (db : DB) (oid uid : Nat) : Option Obligation :=
  db.obligations.find? (fun o => o.id = oid ∧ o.userId = uid)

/-- Dependency ids of an obligation: the `depends_on_obligation_id` column of
`obligation_dependencies` rows with this `obligation_id`. -/
def depIdsOf (db : DB) (oid : Nat) : List Nat :=
  (db.deps.filter (fun e => e.1 = oid)).map (fun e => e.2)

/-- Overridden dependency ids of an obligation: the
`overridden_dependency_id` column of `obligation_overrides` rows with this
`obligation_id`. -/
def overriddenIdsOf (db : DB) (oid : Nat) : List Nat :=
  (db.overrides.filter (fun e => e.1 = oid)).map (fun e => e.2)

/-- The unmet, non-overridden prerequisites of an obligation: dependency
obligations fetched by id whose status is not `verified` and whose id is not
overridden (the `unmet` list of src/main.py lines 3039-3043, also computed by
`_can_unblock_obligation` lines 4348-4351). -/
def unmetOf (db : DB) (oid : Nat) : List Obligation :=
  ((db.obligations.filter (fun d => d.id ∈ depIdsOf db oid)).filter
    (fun d => d.status ≠ "verified" ∧ d.id ∉ overriddenIdsOf db oid))

/-- The `f"{d['type']} (\"{d['title']}\", status: {d['status']})"` payload of
one blocker, kept structured as (type, title, status). -/
def blockerTriple (d : Obligation) : String × String × String :=
  (d.otype, d.title, d.status)

/-- Model of `_can_unblock_obligation` (src/main.py lines 4324-4352): true
iff no unmet, non-overridden dependencies remain. -/
def _can_unblock_obligation (db : DB) (oid : Nat) : Bool :=
  decide (unmetOf db oid = [])

/-- The history row inserted by `_propagate_unblock` for one unblocked
target (src/main.py lines 4393-4399). -/
def propagationEvent (srcId actorUserId : Nat) (t : Obligation) : HistEvent :=
  { obligationId := t.id
    userId := t.userId
    eventType := "propagation_unblocked"
    reason := "source_obligation_id:" ++ toString srcId
    actorUserId := actorUserId }

/-- The `update({"status": "pending"}).eq("id", t["id"])` write of
`_propagate_unblock`: every obligation row with this id is set to pending. -/
def setPending (obls : List Obligation) (tid : Nat) : List Obligation :=
  obls.map (fun o => if o.id = tid then { o with status := "pending" } else o)

/-- Loop body of `_propagate_unblock` (src/main.py lines 4377-4399): iterate
over the snapshot of candidate targets, skipping targets that are not
`blocked`, that fail the school-context match (only enforced when the source
has a school context), or that still have unmet dependencies; otherwise set
the target to `pending` and append a history event.  The database is
threaded through the loop because `_can_unblock_obligation` queries live
state. -/
def propagateLoop (src : Obligation) : List Obligation → DB → DB
  | [], db => db
  | t :: rest, db =>
    if t.status ≠ "blocked" then propagateLoop src rest db
    else if _obligation_school_key src ≠ "__no_school__" ∧
        _obligation_school_key t ≠ _obligation_school_key src then
      propagateLoop src rest db
    else if ¬ _can_unblock_obligation db t.id then propagateLoop src rest db
    else
      propagateLoop src rest
        { db with
          obligations := setPending db.obligations t.id
          history := db.history ++ [propagationEvent src.id src.userId t] }

/-- Model of `_propagate_unblock` (src/main.py lines 4355-4401): look up the
propagation rule for the verified source's type, fetch candidate targets of
those types belonging to the source's user, and run the unblock loop. -/
def _propagate_unblock (db : DB) (src : Obligation) : DB :=
  let targetTypes := PROPAGATION_RULES src.otype
  if targetTypes = [] then db
  else
    propagateLoop src
      (db.obligations.filter
        (fun t => t.userId = src.userId ∧ t.otype ∈ targetTypes))
      db

/-- Model of the `failed`-eligibility block of `update_obligation_status`
(src/main.py lines 2995-3007): requesting `failed` requires current status
not `verified`, a non-null deadline, and `deadline < now` (the code rejects
when `deadline_dt >= datetime.utcnow()`). -/
def failedGuard (o : Obligation) (now : Int) : Option UpdateErr :=
  if o.status = "verified" then some .verifiedCannotFail
  else
    match o.deadline with
    | none => some .noDeadline
    | some d => if d ≥ now then some .deadlineNotPassed else none

/-- Model of `update_obligation_status` (src/main.py lines 2961-3109).
Guards in source order: status-enum validation, ownership fetch,
irreversibility, failure eligibility, dependency gate (only for `submitted`
or `verified`), proof gate (only for `verified` with `proof_required`),
steps gate (only for `verified` FAFSA/SCHOLARSHIP), then the status write
and, when the new status is `verified`, `_propagate_unblock`.  An error
return models the raised `HTTPException`, before which nothing is written. -/
def update_obligation_status (db : DB) (oid uid : Nat) (newStatus : String)
    (now : Int) : Except UpdateErr DB :=
  if newStatus ∉ _OBLIGATION_STATUSES then .error .invalidStatus
  else
    match findObligation db oid uid with
    | none => .error .notFound
    | some o =>
      if (o.status = "failed" ∨ o.status = "verified") ∧ newStatus ≠ o.status then
        .error (.irreversible o.status)
      else
        match (if newStatus = "failed" then failedGuard o now else none) with
        | some e => .error e
        | none =>
          if (newStatus = "submitted" ∨ newStatus = "verified") ∧
              unmetOf db oid ≠ [] then
            .error (.unmetDependencies ((unmetOf db oid).map blockerTriple))
          else if newStatus = "verified" ∧ o.proofRequired = true ∧
              oid ∉ db.proofs then
            .error .missingProof
          else if newStatus = "verified" ∧
              (o.otype = "FAFSA" ∨ o.otype = "SCHOLARSHIP") ∧
              (∃ s ∈ db.steps, s.1 = oid ∧ s.2 ≠ "completed") then
            .error .incompleteSteps
          else
            let upd : Obligation := { o with status := newStatus }
            let db1 : DB :=
              { db with
                obligations := db.obligations.map
                  (fun x => if x.id = oid ∧ x.userId = uid then
                    { x with status := newStatus } else x) }
            if newStatus = "verified" then .ok (_propagate_unblock db1 upd)
            else .ok db1

/-! ## Dependency resolver (`evaluate_obligation_dependencies`, src/main.py
lines 4404-4488, edge-creation core) -/

/-- Model of `_required_types_for_obligation` (src/main.py lines 4293-4305):
the static map, except that `HOUSING_DEPOSIT` requires `ENROLLMENT_DEPOSIT`
when one exists in the same school context, else `ACCEPTANCE`. -/
def _required_types_for_obligation (o : Obligation) (obls : List Obligation) :
    List String :=
  if o.otype = "HOUSING_DEPOSIT" then
    if (obls.filter (fun p => _obligation_school_key p = _obligation_school_key o ∧
        p.otype = "ENROLLMENT_DEPOSIT")) ≠ [] then ["ENROLLMENT_DEPOSIT"]
    else ["ACCEPTANCE"]
  else OBLIGATION_DEPENDENCY_MAP o.otype

/-- Prerequisite candidates for one required type (src/main.py lines
4464-4470): obligations of that type in the same school context, falling
back to the `__no_school__` bucket when the context bucket is empty and the
obligation has a school context. -/
def candidatesFor (obls : List Obligation) (schoolKey reqType : String) :
    List Obligation :=
  let inCtx := obls.filter
    (fun p => _obligation_school_key p = schoolKey ∧ p.otype = reqType)
  if inCtx = [] ∧ schoolKey ≠ "__no_school__" then
    obls.filter
      (fun p => _obligation_school_key p = "__no_school__" ∧ p.otype = reqType)
  else inCtx

/-- The stream of edges `(obl.id, prereq.id)` proposed by the resolver pass
(src/main.py lines 4456-4478), before the not-already-existing filter. -/
def impliedEdges (obls : List Obligation) : List (Nat × Nat) :=
  obls.flatMap (fun o =>
    (_required_types_for_obligation o obls).flatMap (fun rt =>
      (candidatesFor obls (_obligation_school_key o) rt).map (fun p => (o.id, p.id))))

/-- The `edges_to_create` accumulation (src/main.py lines 4472-4479): walk
the proposed edges, keeping those not in the `existing_edges` set, which
also grows with each kept edge (within-pass dedup). -/
def collectNew : List (Nat × Nat) → List (Nat × Nat) → List (Nat × Nat)
  | [], _ => []
  | e :: rest, seen =>
    if e ∈ seen then collectNew rest seen
    else e :: collectNew rest (e :: seen)

/-- Model of the edge-creation core of `evaluate_obligation_dependencies`
(src/main.py lines 4422-4488), success path of the batch insert: returns the
database with the created edges appended, and `dependencies_created`. -/
def evaluate_obligation_dependencies (db : DB) (uid : Nat) : DB × Nat :=
  let obls := db.obligations.filter (fun o => o.userId = uid)
  let oblIds := obls.map (fun o => o.id)
  let existing := db.deps.filter (fun e => e.1 ∈ oblIds)
  let created := collectNew (impliedEdges obls) existing
  ({ db with deps := db.deps ++ created }, created.length)

/-- Model of the same pass with a concurrent writer: `concurrent` rows were
inserted by another request between this pass's read of `existing_deps` and
its batch insert.  The batch `insert(edges_to_create)` is one statement
against the physical table `db.deps ++ concurrent`: it raises on a duplicate
key, in which case none of the batch is inserted and the `except` clause of
src/main.py lines 4484-4488 logs and leaves `deps_created = 0`; the endpoint
continues and returns normally either way. -/
def evaluate_obligation_dependencies_race (db : DB) (uid : Nat)
    (concurrent : List (Nat × Nat)) : DB × Nat :=
  let obls := db.obligations.filter (fun o => o.userId = uid)
  let oblIds := obls.map (fun o => o.id)
  let existing := db.deps.filter (fun e => e.1 ∈ oblIds)
  let created := collectNew (impliedEdges obls) existing
  let table := db.deps ++ concurrent
  if created = [] then ({ db with deps := table }, 0)
  else if ∃ e ∈ created, e ∈ table then ({ db with deps := table }, 0)
  else ({ db with deps := table ++ created }, created.length)

/-! ## Deadlock detection (`_find_deadlocked_obligations`, src/main.py
lines 4913-4966) -/

/-- The graph built by `_find_deadlocked_obligations`: dependency edges with
overridden edges excluded. -/
def buildGraph (depEdges overrideSet : List (Nat × Nat)) : List (Nat × Nat) :=
  depEdges.filter (fun e => e ∉ overrideSet)

/-- Adjacency: successors of `v` in the edge list (the `graph[node]` set). -/
def succsOf (g : List (Nat × Nat)) (v : Nat) : List Nat :=
  (g.filter (fun e => e.1 = v)).map (fun e => e.2)

/-- The `all_nodes` set: both endpoints of every (non-overridden) edge. -/
def nodesOf (g : List (Nat × Nat)) : List Nat :=
  g.map (fun e => e.1) ++ g.map (fun e => e.2)

/-- DFS state: the `visited`, `in_stack` and `deadlocked` sets of
`_find_deadlocked_obligations`, as lists (membership is what matters). -/
structure DfsSt where
  visited : List Nat
  stack : List Nat
  dead : List Nat
deriving DecidableEq, Repr

/-- The `for dep in graph.get(node, set())` loop of the DFS, parametrized by
the recursive call `dfs1` used for unvisited successors: a back edge
(successor on the stack) marks both endpoints deadlocked; an unvisited
successor is explored recursively and, if it reaches a cycle, marks the
current node; a visited successor already marked deadlocked also marks the
current node. -/
def dfsSuccs (dfs1 : Nat → DfsSt → Bool × DfsSt) (v : Nat) :
    List Nat → DfsSt → Bool × DfsSt
  | [], st => (false, st)
  | w :: rest, st =>
    if w ∈ st.stack then
      let r := dfsSuccs dfs1 v rest { st with dead := w :: v :: st.dead }
      (true, r.2)
    else if w ∉ st.visited then
      let rw := dfs1 w st
      let st2 := if rw.1 then { rw.2 with dead := v :: rw.2.dead } else rw.2
      let r := dfsSuccs dfs1 v rest st2
      (rw.1 || r.1, r.2)
    else if w ∈ st.dead then
      let r := dfsSuccs dfs1 v rest { st with dead := v :: st.dead }
      (true, r.2)
    else dfsSuccs dfs1 v rest st

/-- The recursive `dfs(node)` of `_find_deadlocked_obligations`: mark the
node visited and on the stack, scan its successors, then leave the stack.
Returns (reaches_cycle, state); recursion is bounded by `fuel`, which the
caller sets large enough that it is never exhausted. -/
def dfsVisit (g : List (Nat × Nat)) : Nat → Nat → DfsSt → Bool × DfsSt
  | 0, _, st => (false, st)
  | fuel + 1, v, st =>
    let st1 : DfsSt := { st with visited := v :: st.visited, stack := v :: st.stack }
    let r := dfsSuccs (dfsVisit g fuel) v (succsOf g v) st1
    (r.1, { r.2 with stack := r.2.stack.erase v })

/-- The `for node in all_nodes: if node not in visited: dfs(node)` driver. -/
def dfsAll (g : List (Nat × Nat)) (fuel : Nat) : List Nat → DfsSt → DfsSt
  | [], st => st
  | v :: rest, st =>
    if v ∈ st.visited then dfsAll g fuel rest st
    else dfsAll g fuel rest (dfsVisit g fuel v st).2

/-- Model of `_find_deadlocked_obligations` (src/main.py lines 4913-4966):
DFS with a recursion stack over the dependency graph with overridden edges
removed; returns the deadlocked set. -/
def _find_deadlocked_obligations (depEdges overrideSet : List (Nat × Nat)) :
    List Nat :=
  let g := buildGraph depEdges overrideSet
  (dfsAll g ((nodesOf g).length + 1) (nodesOf g) ⟨[], [], []⟩).dead

/-- Edge relation of the filtered graph. -/
def EdgeRel (g : List (Nat × Nat)) (v w : Nat) : Prop := (v, w) ∈ g

/-- Reachability: zero or more edges. -/
def Reach (g : List (Nat × Nat)) : Nat → Nat → Prop :=
  Relation.ReflTransGen (EdgeRel g)

/-- Membership of a node on a dependency cycle: a nonempty path from the
node back to itself. -/
def OnCycle (g : List (Nat × Nat)) (u : Nat) : Prop :=
  ∃ w, EdgeRel g u w ∧ Reach g w u

/-- A node that is on a cycle or can reach one. -/
def ReachesCycle (g : List (Nat × Nat)) (v : Nat) : Prop :=
  ∃ u, Reach g v u ∧ OnCycle g u

def setPendingAll (obls : List Obligation) (ids : List Nat) : List Obligation :=
  obls.map (fun o => if o.id ∈ ids then { o with status := "pending" } else o)

lemma setPendingAll_nil (obls : List Obligation) : setPendingAll obls [] = obls := by
  simp [setPendingAll]

lemma setPending_setPendingAll (obls : List Obligation) (ids : List Nat) (tid : Nat) :
    setPending (setPendingAll obls ids) tid = setPendingAll obls (ids ++ [tid]) := by
  simp only [setPending, setPendingAll, List.map_map]
  refine List.map_congr_left (fun o _ => ?_)
  obtain ⟨i, u, ty, ti, sr, st, dl, pr⟩ := o
  by_cases h2 : i = tid
  · subst h2
    by_cases h1 : i ∈ ids <;> simp [Function.comp, h1]
  · by_cases h1 : i ∈ ids <;> simp [Function.comp, h1, h2]

def loopElig (db0 : DB) (src t : Obligation) : Prop :=
  t.status = "blocked" ∧
  (_obligation_school_key src = "__no_school__" ∨
    _obligation_school_key t = _obligation_school_key src) ∧
  unmetOf db0 t.id = []

instance (db0 : DB) (src t : Obligation) : Decidable (loopElig db0 src t) := by
  unfold loopElig; infer_instance

lemma unmetOf_empty_setPendingAll (db0 : DB) (db : DB) (ids : List Nat) (tid : Nat)
    (hobl : db.obligations = setPendingAll db0.obligations ids)
    (hdeps : db.deps = db0.deps) (hov : db.overrides = db0.overrides)
    (hst : ∀ o ∈ db0.obligations, o.id ∈ ids → o.status = "blocked") :
    (unmetOf db tid = []) ↔ (unmetOf db0 tid = []) := by
  have hdep' : depIdsOf db tid = depIdsOf db0 tid := by
    simp [depIdsOf, hdeps]
  have hov' : overriddenIdsOf db tid = overriddenIdsOf db0 tid := by
    simp [overriddenIdsOf, hov]
  simp only [unmetOf, hdep', hov', hobl, setPendingAll, List.filter_filter,
    List.filter_eq_nil_iff, List.mem_map]
  constructor
  · rintro h o ho
    have := h _ ⟨o, ho, rfl⟩
    by_cases hmem : o.id ∈ ids
    · have hb := hst o ho hmem
      obtain ⟨i, u, ty, ti, sr, st, dl, pr⟩ := o
      simp only at hb
      subst hb
      simpa [hmem] using this
    · simpa [hmem] using this
  · rintro h a ⟨o, ho, rfl⟩
    have := h o ho
    by_cases hmem : o.id ∈ ids
    · have hb := hst o ho hmem
      obtain ⟨i, u, ty, ti, sr, st, dl, pr⟩ := o
      simp only at hb
      subst hb
      simpa [hmem] using this
    · simpa [hmem] using this
lemma propagateLoop_char (src : Obligation) (db0 : DB)
    (hid : (db0.obligations.map (fun o => o.id)).Nodup) :
    ∀ (ts : List Obligation) (db : DB) (done : List Obligation),
      db.obligations = setPendingAll db0.obligations (done.map (fun d => d.id)) →
      db.history = db0.history ++ done.map (propagationEvent src.id src.userId) →
      db.deps = db0.deps → db.overrides = db0.overrides →
      db.proofs = db0.proofs → db.steps = db0.steps →
      (∀ o ∈ db0.obligations, o.id ∈ done.map (fun d => d.id) → o.status = "blocked") →
      (∀ t ∈ ts, t ∈ db0.obligations) →
      propagateLoop src ts db =
        { db0 with
          obligations := setPendingAll db0.obligations
            ((done ++ ts.filter (fun t => loopElig db0 src t)).map (fun d => d.id))
          history := db0.history ++
            (done ++ ts.filter (fun t => loopElig db0 src t)).map
              (propagationEvent src.id src.userId) } := by
  intro ts
  induction ts with
  | nil =>
    intro db done h1 h2 h3 h4 h5 h6 hdone hts
    cases db
    simp only at h1 h2 h3 h4 h5 h6
    subst h1 h2 h3 h4 h5 h6
    simp [propagateLoop]
  | cons t rest ih =>
    intro db done h1 h2 h3 h4 h5 h6 hdone hts
    have htmem : t ∈ db0.obligations := hts t (by simp)
    have htsrest : ∀ u ∈ rest, u ∈ db0.obligations := fun u hu => hts u (by simp [hu])
    rw [propagateLoop]
    by_cases hb : t.status ≠ "blocked"
    · rw [if_pos hb]
      have hfe : ¬ loopElig db0 src t := fun h => hb h.1
      rw [List.filter_cons_of_neg (by simpa using hfe)]
      exact ih db done h1 h2 h3 h4 h5 h6 hdone htsrest
    · rw [if_neg hb]
      push_neg at hb
      by_cases hc : _obligation_school_key src ≠ "__no_school__" ∧
          _obligation_school_key t ≠ _obligation_school_key src
      · rw [if_pos hc]
        have hfe : ¬ loopElig db0 src t := by
          rintro ⟨-, hctx, -⟩
          rcases hctx with h | h
          · exact hc.1 h
          · exact hc.2 h
        rw [List.filter_cons_of_neg (by simpa using hfe)]
        exact ih db done h1 h2 h3 h4 h5 h6 hdone htsrest
      · rw [if_neg hc]
        have hctx : _obligation_school_key src = "__no_school__" ∨
            _obligation_school_key t = _obligation_school_key src := by
          by_cases hs : _obligation_school_key src = "__no_school__"
          · exact Or.inl hs
          · rcases not_and_or.mp hc with h | h
            · exact absurd hs (by simpa using h)
            · exact Or.inr (by simpa using h)
        have hinv := unmetOf_empty_setPendingAll db0 db (done.map (fun d => d.id))
          t.id h1 h3 h4 hdone
        by_cases hcu : ¬ _can_unblock_obligation db t.id = true
        · rw [if_pos hcu]
          have hfe : ¬ loopElig db0 src t := by
            rintro ⟨-, -, hun⟩
            exact hcu (by simp [_can_unblock_obligation, hinv.mpr hun])
          rw [List.filter_cons_of_neg (by simpa using hfe)]
          exact ih db done h1 h2 h3 h4 h5 h6 hdone htsrest
        · rw [if_neg hcu]
          push_neg at hcu
          have hun0 : unmetOf db0 t.id = [] := by
            have : unmetOf db t.id = [] := by
              simpa [_can_unblock_obligation] using hcu
            exact hinv.mp this
          have hfe : loopElig db0 src t := ⟨hb, hctx, hun0⟩
          rw [List.filter_cons_of_pos (by simpa using hfe)]
          have step := ih
            { db with
              obligations := setPending db.obligations t.id
              history := db.history ++ [propagationEvent src.id src.userId t] }
            (done ++ [t])
            (by
              simp only [h1, setPending_setPendingAll, List.map_append,
                List.map_cons, List.map_nil])
            (by simp [h2, List.map_append])
            h3 h4 h5 h6
            (by
              intro o ho hoid
              simp only [List.map_append, List.map_cons, List.map_nil,
                List.mem_append, List.mem_singleton] at hoid
              rcases hoid with h | h
              · exact hdone o ho h
              · have := List.inj_on_of_nodup_map hid ho htmem (by simpa using h)
                rw [this]; exact hb)
            htsrest
          rw [step]
          simp [List.append_assoc]
/-- Full eligibility for unblock propagation, relative to the database
snapshot at propagation start: candidate type and user (the fetch filter),
currently blocked, school-context match (trivial when the source has no
school context), and no unmet non-overridden dependencies. -/
def unblockEligible (db : DB) (src t : Obligation) : Prop :=
  t.userId = src.userId ∧ t.otype ∈ PROPAGATION_RULES src.otype ∧ loopElig db src t

instance (db : DB) (src t : Obligation) : Decidable (unblockEligible db src t) := by
  unfold unblockEligible; infer_instance

lemma mem_filter_map_id_iff (l : List Obligation) (q : Obligation → Bool)
    (hid : (l.map (fun o => o.id)).Nodup) (o : Obligation) (ho : o ∈ l) :
    (o.id ∈ (l.filter q).map (fun d => d.id)) ↔ q o = true := by
  constructor
  · rintro h
    simp only [List.mem_map, List.mem_filter] at h
    obtain ⟨o', ⟨ho', hq⟩, heq⟩ := h
    have := List.inj_on_of_nodup_map hid ho' ho heq
    rwa [this] at hq
  · intro hq
    exact List.mem_map.mpr ⟨o, List.mem_filter.mpr ⟨ho, hq⟩, rfl⟩

/-- Characterization of `_propagate_unblock`: exactly the eligible rows are
set to `pending`, one history event is appended per unblocked row, and no
other field of the store changes. -/
lemma _propagate_unblock_char (db : DB) (src : Obligation)
    (hid : (db.obligations.map (fun o => o.id)).Nodup) :
    _propagate_unblock db src =
      { db with
        obligations := db.obligations.map (fun o =>
          if unblockEligible db src o then { o with status := "pending" } else o)
        history := db.history ++
          (db.obligations.filter (fun o => unblockEligible db src o)).map
            (propagationEvent src.id src.userId) } := by
  unfold _propagate_unblock
  by_cases hrules : PROPAGATION_RULES src.otype = []
  · rw [if_pos hrules]
    have hfe : ∀ o, ¬ unblockEligible db src o := by
      rintro o ⟨-, hmem, -⟩
      rw [hrules] at hmem
      exact List.not_mem_nil _ hmem
    have h1 : db.obligations.map (fun o =>
        if unblockEligible db src o then { o with status := "pending" } else o) =
        db.obligations := by
      have h0 : db.obligations.map (fun o =>
          if unblockEligible db src o then { o with status := "pending" } else o) =
          db.obligations.map id :=
        List.map_congr_left (fun o _ => by rw [if_neg (hfe o)]; rfl)
      simpa using h0
    have h2 : db.obligations.filter (fun o => unblockEligible db src o) = [] := by
      rw [List.filter_eq_nil_iff]
      intro o _
      simpa using hfe o
    rw [h1, h2]
    simp
  · rw [if_neg hrules]
    have step := propagateLoop_char src db hid
      (db.obligations.filter
        (fun t => t.userId = src.userId ∧ t.otype ∈ PROPAGATION_RULES src.otype))
      db [] (by rw [List.map_nil, setPendingAll_nil]) (by simp) rfl rfl rfl rfl
      (by simp) (fun t ht => List.mem_of_mem_filter ht)
    rw [step]
    have hff : (db.obligations.filter
        (fun t => t.userId = src.userId ∧ t.otype ∈ PROPAGATION_RULES src.otype)).filter
        (fun t => loopElig db src t) =
        db.obligations.filter (fun o => unblockEligible db src o) := by
      rw [List.filter_filter]
      refine List.filter_congr (fun o _ => ?_)
      by_cases h : unblockEligible db src o
      · obtain ⟨ha, hb, hc⟩ := h
        simp [ha, hb, hc, unblockEligible]
      · simp only [unblockEligible, not_and_or] at h
        rcases h with h | h | h <;> simp [h, unblockEligible]
    simp only [List.nil_append]
    rw [hff]
    have hsp : setPendingAll db.obligations
        ((db.obligations.filter (fun o => unblockEligible db src o)).map
          (fun d => d.id)) =
        db.obligations.map (fun o =>
          if unblockEligible db src o then { o with status := "pending" } else o) := by
      unfold setPendingAll
      refine List.map_congr_left (fun o ho => ?_)
      by_cases h : unblockEligible db src o
      · rw [if_pos ((mem_filter_map_id_iff _ _ hid o ho).mpr (by simpa using h)),
          if_pos h]
      · rw [if_neg (fun hmem => h (by
            simpa using (mem_filter_map_id_iff _ _ hid o ho).mp hmem)), if_neg h]
    rw [hsp]
/-- The row update performed by a successful `update_obligation_status`:
`update({"status": s}).eq("id", oid).eq("user_id", uid)`. -/
def statusWriteDB (db : DB) (oid uid : Nat) (s : String) : DB :=
  { db with
    obligations := db.obligations.map
      (fun x => if x.id = oid ∧ x.userId = uid then { x with status := s } else x) }

/-- Result of the success path of `update_obligation_status`: the status
write, followed by unblock propagation when the new status is verified. -/
def updateResultDB (db : DB) (oid uid : Nat) (s : String) (o : Obligation) : DB :=
  if s = "verified" then
    _propagate_unblock (statusWriteDB db oid uid s) { o with status := s }
  else statusWriteDB db oid uid s

lemma update_success (db : DB) (oid uid : Nat) (s : String) (now : Int)
    (o : Obligation)
    (hval : s ∈ _OBLIGATION_STATUSES)
    (hfind : findObligation db oid uid = some o)
    (hirr : ¬ ((o.status = "failed" ∨ o.status = "verified") ∧ s ≠ o.status))
    (hfail : s = "failed" → failedGuard o now = none)
    (hdep : (s = "submitted" ∨ s = "verified") → unmetOf db oid = [])
    (hproof : s = "verified" → o.proofRequired = true → oid ∈ db.proofs)
    (hsteps : s = "verified" → (o.otype = "FAFSA" ∨ o.otype = "SCHOLARSHIP") →
      ¬ ∃ st ∈ db.steps, st.1 = oid ∧ st.2 ≠ "completed") :
    update_obligation_status db oid uid s now =
      .ok (updateResultDB db oid uid s o) := by
  unfold update_obligation_status
  rw [if_neg (by simp [hval]), hfind]
  dsimp only
  rw [if_neg hirr]
  have hfg : (if s = "failed" then failedGuard o now else none) = none := by
    by_cases hf : s = "failed"
    · rw [if_pos hf]; exact hfail hf
    · rw [if_neg hf]
  rw [hfg]
  rw [if_neg (by
    rintro ⟨hsv, hne⟩
    exact hne (hdep hsv))]
  rw [if_neg (by
    rintro ⟨hv, hpr, hnp⟩
    exact hnp (hproof hv hpr))]
  rw [if_neg (by
    rintro ⟨hv, hty, hex⟩
    exact hsteps hv hty hex)]
  dsimp only
  unfold updateResultDB statusWriteDB
  by_cases hv : s = "verified"
  · rw [if_pos hv, if_pos hv]
  · rw [if_neg hv, if_neg hv]

lemma update_ok_shape (db : DB) (oid uid : Nat) (s : String) (now : Int) (db' : DB)
    (h : update_obligation_status db oid uid s now = .ok db') :
    ∃ o, findObligation db oid uid = some o ∧
      ¬ ((o.status = "failed" ∨ o.status = "verified") ∧ s ≠ o.status) ∧
      (s = "failed" → failedGuard o now = none) ∧
      db' = updateResultDB db oid uid s o := by
  unfold update_obligation_status at h
  by_cases hval : s ∉ _OBLIGATION_STATUSES
  · rw [if_pos hval] at h; cases h
  rw [if_neg hval] at h
  cases hfind : findObligation db oid uid with
  | none => rw [hfind] at h; cases h
  | some o =>
    rw [hfind] at h
    dsimp only at h
    by_cases hirr : ((o.status = "failed" ∨ o.status = "verified") ∧ s ≠ o.status)
    · rw [if_pos hirr] at h; cases h
    rw [if_neg hirr] at h
    cases hfg : (if s = "failed" then failedGuard o now else none) with
    | some e => rw [hfg] at h; cases h
    | none =>
      refine ⟨o, rfl, hirr, (fun hf => by rw [if_pos hf] at hfg; exact hfg), ?_⟩
      rw [hfg] at h
      by_cases hdep : ((s = "submitted" ∨ s = "verified") ∧ unmetOf db oid ≠ [])
      · rw [if_pos hdep] at h; cases h
      rw [if_neg hdep] at h
      by_cases hpr : (s = "verified" ∧ o.proofRequired = true ∧ oid ∉ db.proofs)
      · rw [if_pos hpr] at h; cases h
      rw [if_neg hpr] at h
      by_cases hst : (s = "verified" ∧ (o.otype = "FAFSA" ∨ o.otype = "SCHOLARSHIP") ∧
          (∃ st ∈ db.steps, st.1 = oid ∧ st.2 ≠ "completed"))
      · rw [if_pos hst] at h; cases h
      rw [if_neg hst] at h
      dsimp only at h
      unfold updateResultDB statusWriteDB
      by_cases hv : s = "verified"
      · rw [if_pos hv] at h
        cases h
        rw [if_pos hv]
      · rw [if_neg hv] at h
        cases h
        rw [if_neg hv]
lemma update_irreversible_error (db : DB) (oid uid : Nat) (s : String) (now : Int)
    (o : Obligation)
    (hval : s ∈ _OBLIGATION_STATUSES)
    (hfind : findObligation db oid uid = some o)
    (hterm : o.status = "failed" ∨ o.status = "verified")
    (hne : s ≠ o.status) :
    update_obligation_status db oid uid s now = .error (.irreversible o.status) := by
  unfold update_obligation_status
  rw [if_neg (by simp [hval]), hfind]
  dsimp only
  rw [if_pos ⟨hterm, hne⟩]

lemma update_unmet_error (db : DB) (oid uid : Nat) (s : String) (now : Int)
    (o : Obligation)
    (hval : s ∈ _OBLIGATION_STATUSES)
    (hfind : findObligation db oid uid = some o)
    (hirr : ¬ ((o.status = "failed" ∨ o.status = "verified") ∧ s ≠ o.status))
    (hsv : s = "submitted" ∨ s = "verified")
    (hun : unmetOf db oid ≠ []) :
    update_obligation_status db oid uid s now =
      .error (.unmetDependencies ((unmetOf db oid).map blockerTriple)) := by
  unfold update_obligation_status
  rw [if_neg (by simp [hval]), hfind]
  dsimp only
  rw [if_neg hirr]
  have hnf : ¬ s = "failed" := by
    rcases hsv with h | h <;> subst h <;> decide
  rw [if_neg hnf]
  dsimp only
  rw [if_pos ⟨hsv, hun⟩]

lemma mem_depIdsOf (db : DB) (oid x : Nat) :
    x ∈ depIdsOf db oid ↔ (oid, x) ∈ db.deps := by
  simp only [depIdsOf, List.mem_map, List.mem_filter]
  constructor
  · rintro ⟨⟨a, b⟩, ⟨hm, he⟩, rfl⟩
    simp only [decide_eq_true_eq] at he
    subst he
    exact hm
  · intro hm
    exact ⟨(oid, x), ⟨hm, by simp⟩, rfl⟩

lemma mem_overriddenIdsOf (db : DB) (oid x : Nat) :
    x ∈ overriddenIdsOf db oid ↔ (oid, x) ∈ db.overrides := by
  simp only [overriddenIdsOf, List.mem_map, List.mem_filter]
  constructor
  · rintro ⟨⟨a, b⟩, ⟨hm, he⟩, rfl⟩
    simp only [decide_eq_true_eq] at he
    subst he
    exact hm
  · intro hm
    exact ⟨(oid, x), ⟨hm, by simp⟩, rfl⟩

lemma mem_unmetOf (db : DB) (oid : Nat) (d : Obligation) :
    d ∈ unmetOf db oid ↔
      d ∈ db.obligations ∧ (oid, d.id) ∈ db.deps ∧
        d.status ≠ "verified" ∧ (oid, d.id) ∉ db.overrides := by
  simp only [unmetOf, List.mem_filter, decide_eq_true_eq, ← mem_depIdsOf,
    ← mem_overriddenIdsOf]
  tauto

/-- The blocking list is nonempty exactly when some dependency edge of the
obligation, not present in the override ledger, points to a stored
prerequisite whose status is not verified. -/
lemma unmetOf_ne_nil_iff (db : DB) (oid : Nat) :
    unmetOf db oid ≠ [] ↔
      ∃ d ∈ db.obligations, (oid, d.id) ∈ db.deps ∧
        (oid, d.id) ∉ db.overrides ∧ d.status ≠ "verified" := by
  constructor
  · intro h
    match hm : unmetOf db oid with
    | [] => exact absurd hm h
    | d :: _ =>
      have hd : d ∈ unmetOf db oid := by
        rw [hm]; exact List.mem_cons_self _ _
      obtain ⟨h1, h2, h3, h4⟩ := (mem_unmetOf db oid d).mp hd
      exact ⟨d, h1, h2, h4, h3⟩
  · rintro ⟨d, h1, h2, h3, h4⟩ hnil
    have hd := (mem_unmetOf db oid d).mpr ⟨h1, h2, h4, h3⟩
    rw [hnil] at hd
    exact List.not_mem_nil _ hd
lemma find_eq_of_nodup (db : DB) (oid uid : Nat) (o o' : Obligation)
    (hid : (db.obligations.map (fun x => x.id)).Nodup)
    (hfind : findObligation db oid uid = some o')
    (ho : o ∈ db.obligations) (hoid : o.id = oid) :
    o = o' := by
  have hmem := List.mem_of_find?_eq_some hfind
  have hp := List.find?_some hfind
  simp only [decide_eq_true_eq] at hp
  exact List.inj_on_of_nodup_map hid ho hmem (by rw [hoid, hp.1])

lemma statusWriteDB_ids (db : DB) (oid uid : Nat) (s : String) :
    (statusWriteDB db oid uid s).obligations.map (fun x => x.id) =
      db.obligations.map (fun x => x.id) := by
  simp only [statusWriteDB, List.map_map]
  refine List.map_congr_left (fun x _ => ?_)
  by_cases h : x.id = oid ∧ x.userId = uid <;> simp [Function.comp, h]

lemma update_irreversible_only (db : DB) (oid uid : Nat) (s : String) (now : Int)
    (c : String)
    (h : update_obligation_status db oid uid s now = .error (.irreversible c)) :
    ∃ o, findObligation db oid uid = some o ∧ s ≠ o.status := by
  unfold update_obligation_status at h
  by_cases hval : s ∉ _OBLIGATION_STATUSES
  · rw [if_pos hval] at h; cases h
  rw [if_neg hval] at h
  cases hfind : findObligation db oid uid with
  | none => rw [hfind] at h; cases h
  | some o =>
    rw [hfind] at h
    dsimp only at h
    by_cases hirr : ((o.status = "failed" ∨ o.status = "verified") ∧ s ≠ o.status)
    · exact ⟨o, rfl, hirr.2⟩
    rw [if_neg hirr] at h
    cases hfg : (if s = "failed" then failedGuard o now else none) with
    | some e =>
      rw [hfg] at h
      injection h with h2
      subst h2
      by_cases hf : s = "failed"
      · rw [if_pos hf] at hfg
        unfold failedGuard at hfg
        by_cases hv : o.status = "verified"
        · rw [if_pos hv] at hfg; simp at hfg
        rw [if_neg hv] at hfg
        cases hd : o.deadline with
        | none => rw [hd] at hfg; simp at hfg
        | some d =>
          rw [hd] at hfg
          dsimp only at hfg
          by_cases hge : d ≥ now
          · rw [if_pos hge] at hfg; simp at hfg
          · rw [if_neg hge] at hfg; simp at hfg
      · rw [if_neg hf] at hfg; simp at hfg
    | none =>
      rw [hfg] at h
      dsimp only at h
      by_cases hdep : ((s = "submitted" ∨ s = "verified") ∧ unmetOf db oid ≠ [])
      · rw [if_pos hdep] at h; cases h
      rw [if_neg hdep] at h
      by_cases hpr : (s = "verified" ∧ o.proofRequired = true ∧ oid ∉ db.proofs)
      · rw [if_pos hpr] at h; cases h
      rw [if_neg hpr] at h
      by_cases hst : (s = "verified" ∧ (o.otype = "FAFSA" ∨ o.otype = "SCHOLARSHIP") ∧
          (∃ st ∈ db.steps, st.1 = oid ∧ st.2 ≠ "completed"))
      · rw [if_pos hst] at h; cases h
      rw [if_neg hst] at h
      by_cases hv : s = "verified"
      · rw [if_pos hv] at h; cases h
      · rw [if_neg hv] at h; cases h

/-- C1 — Irreversibility of terminal statuses.  (1) For a stored obligation
whose status is failed or verified, an `update_obligation_status` request for
any different (valid) status returns the irreversibility error, which is a
ConflictError, and since an error is returned before any write the stored
status is unchanged.  (2) No successful `update_obligation_status` call
(including its unblock propagation) removes or alters a row whose status is
failed or verified: the row is present unchanged in the result.  (3) The
stuck batch's only status write (`should_mark_failed`) never fires on a
failed or verified obligation. -/
theorem terminal_statuses_are_irreversible :
    (∀ db oid uid s now o,
      findObligation db oid uid = some o →
      (o.status = "failed" ∨ o.status = "verified") →
      s ∈ _OBLIGATION_STATUSES → s ≠ o.status →
      update_obligation_status db oid uid s now = .error (.irreversible o.status) ∧
      (UpdateErr.irreversible o.status).isConflict = true) ∧
    (∀ db oid uid s now db',
      (db.obligations.map (fun x => x.id)).Nodup →
      update_obligation_status db oid uid s now = .ok db' →
      ∀ o ∈ db.obligations, (o.status = "failed" ∨ o.status = "verified") →
        o ∈ db'.obligations) ∧
    (∀ status sev, (status = "failed" ∨ status = "verified") →
      should_mark_failed status sev = false) := by
  refine ⟨?_, ?_, ?_⟩
  · intro db oid uid s now o hfind hterm hval hne
    exact ⟨update_irreversible_error db oid uid s now o hval hfind hterm hne, rfl⟩
  · intro db oid uid s now db' hid h o ho hterm
    obtain ⟨o0, hfind, hirr, -, hshape⟩ := update_ok_shape db oid uid s now db' h
    have hfo : (if o.id = oid ∧ o.userId = uid then { o with status := s } else o) = o := by
      by_cases hc : o.id = oid ∧ o.userId = uid
      · have heq : o = o0 := find_eq_of_nodup db oid uid o o0 hid hfind ho hc.1
        have hs : s = o.status := by
          by_contra hne2
          exact hirr ⟨by rw [← heq]; exact hterm, fun hh => hne2 (by rw [heq]; exact hh)⟩
        rw [if_pos hc, hs]
      · rw [if_neg hc]
    have hmem1 : o ∈ (statusWriteDB db oid uid s).obligations := by
      unfold statusWriteDB
      dsimp only
      exact List.mem_map.mpr ⟨o, ho, hfo⟩
    subst hshape
    unfold updateResultDB
    by_cases hv : s = "verified"
    · rw [if_pos hv]
      have hid1 : ((statusWriteDB db oid uid s).obligations.map (fun x => x.id)).Nodup := by
        rw [statusWriteDB_ids]; exact hid
      rw [_propagate_unblock_char _ _ hid1]
      dsimp only
      have helig : ¬ unblockEligible (statusWriteDB db oid uid s)
          { o0 with status := s } o := by
        rintro ⟨-, -, hblocked, -, -⟩
        rcases hterm with ht | ht <;> rw [ht] at hblocked
        · exact (by decide : ("failed" : String) ≠ "blocked") hblocked
        · exact (by decide : ("verified" : String) ≠ "blocked") hblocked
      exact List.mem_map.mpr ⟨o, hmem1, by rw [if_neg helig]⟩
    · rw [if_neg hv]
      exact hmem1
  · rintro status sev (h | h) <;> subst h <;> simp [should_mark_failed]

def exOblTerm : Obligation := ⟨1, 1, "ENROLLMENT", "t", "", "failed", none, false⟩

def exOblPend : Obligation := ⟨2, 1, "ENROLLMENT", "t", "", "pending", none, false⟩

def exDbTerm : DB := ⟨[exOblTerm, exOblPend], [], [], [], [], []⟩

def exDbTermAfter : DB :=
  ⟨[exOblTerm, { exOblPend with status := "submitted" }], [], [], [], [], []⟩

/-- Witness for C1 at a concrete store. -/
theorem terminal_statuses_are_irreversible_witness :
    (update_obligation_status exDbTerm 1 1 "pending" 0 =
        .error (.irreversible "failed") ∧
      (UpdateErr.irreversible "failed").isConflict = true) ∧
    exOblTerm ∈ exDbTermAfter.obligations ∧
    should_mark_failed "failed" "failed" = false :=
  ⟨terminal_statuses_are_irreversible.1 exDbTerm 1 1 "pending" 0 exOblTerm rfl
      (Or.inl rfl) (by decide) (by decide),
    terminal_statuses_are_irreversible.2.1 exDbTerm 2 1 "submitted" 0 exDbTermAfter
      (by decide) rfl exOblTerm (by decide) (Or.inl rfl),
    terminal_statuses_are_irreversible.2.2 "failed" "failed" (Or.inl rfl)⟩
/-- C2 — Dependency gate.  (1) The blocking set is nonempty exactly when some
dependency edge of the obligation, absent from the override ledger, points to
a stored prerequisite that is not verified.  (2) For a requested transition
to submitted or verified (irreversibility passing), a nonempty blocking set
makes `update_obligation_status` fail with the ConflictError that lists each
blocker's type, title and status.  (3) When every non-overridden prerequisite
is verified and the proof and steps gates are satisfied, the same transition
succeeds. -/
theorem dependency_gate_blocks_and_releases :
    (∀ db oid, unmetOf db oid ≠ [] ↔
      ∃ d ∈ db.obligations, (oid, d.id) ∈ db.deps ∧
        (oid, d.id) ∉ db.overrides ∧ d.status ≠ "verified") ∧
    (∀ db oid uid s now o,
      findObligation db oid uid = some o →
      s ∈ _OBLIGATION_STATUSES → (s = "submitted" ∨ s = "verified") →
      ¬ ((o.status = "failed" ∨ o.status = "verified") ∧ s ≠ o.status) →
      unmetOf db oid ≠ [] →
      update_obligation_status db oid uid s now =
        .error (.unmetDependencies ((unmetOf db oid).map blockerTriple)) ∧
      (UpdateErr.unmetDependencies ((unmetOf db oid).map blockerTriple)).isConflict =
        true) ∧
    (∀ db oid uid s now o,
      findObligation db oid uid = some o →
      s ∈ _OBLIGATION_STATUSES → (s = "submitted" ∨ s = "verified") →
      ¬ ((o.status = "failed" ∨ o.status = "verified") ∧ s ≠ o.status) →
      unmetOf db oid = [] →
      (s = "verified" → o.proofRequired = true → oid ∈ db.proofs) →
      (s = "verified" → (o.otype = "FAFSA" ∨ o.otype = "SCHOLARSHIP") →
        ¬ ∃ st ∈ db.steps, st.1 = oid ∧ st.2 ≠ "completed") →
      ∃ db', update_obligation_status db oid uid s now = .ok db') := by
  refine ⟨unmetOf_ne_nil_iff, ?_, ?_⟩
  · intro db oid uid s now o hfind hval hsv hirr hun
    exact ⟨update_unmet_error db oid uid s now o hval hfind hirr hsv hun, rfl⟩
  · intro db oid uid s now o hfind hval hsv hirr hun hproof hsteps
    have hnf : s ≠ "failed" := by
      rcases hsv with h | h <;> subst h <;> decide
    exact ⟨_, update_success db oid uid s now o hval hfind hirr
      (fun hf => absurd hf hnf) (fun _ => hun) hproof hsteps⟩

def exOblA : Obligation := ⟨1, 1, "APPLICATION_SUBMISSION", "A", "", "pending", none, false⟩

def exOblB : Obligation := ⟨2, 1, "APPLICATION_FEE", "B", "", "pending", none, false⟩

def exDbAB : DB := ⟨[exOblA, exOblB], [(1, 2)], [], [], [], []⟩

def exDbABv : DB :=
  ⟨[exOblA, { exOblB with status := "verified" }], [(1, 2)], [], [], [], []⟩

/-- Witness for C2: with B pending, verifying A fails naming B; with B
verified, the same call succeeds. -/
theorem dependency_gate_blocks_and_releases_witness :
    update_obligation_status exDbAB 1 1 "verified" 0 =
      .error (.unmetDependencies [("APPLICATION_FEE", "B", "pending")]) ∧
    (∃ db', update_obligation_status exDbABv 1 1 "verified" 0 = .ok db') :=
  ⟨(dependency_gate_blocks_and_releases.2.1 exDbAB 1 1 "verified" 0 exOblA rfl
      (by decide) (Or.inr rfl) (by decide) (by decide)).1,
    dependency_gate_blocks_and_releases.2.2 exDbABv 1 1 "verified" 0 exOblA rfl
      (by decide) (Or.inr rfl) (by decide) (by decide)
      (fun _ h => absurd h (by decide)) (fun _ h => absurd h (by decide))⟩

/-- C9 (amended) — Failure eligibility.  A request to mark an obligation
failed succeeds exactly when the obligation is found, its status is not
verified, it has a deadline, and the current time is strictly past the
deadline; the code rejects when `deadline_dt >= now`, so the transition is
rejected at the exact deadline instant (the original claim allowed it
there). -/
theorem failed_eligibility_strict_deadline :
    ∀ db oid uid now,
      (∃ db', update_obligation_status db oid uid "failed" now = .ok db') ↔
      (∃ o, findObligation db oid uid = some o ∧ o.status ≠ "verified" ∧
        ∃ d, o.deadline = some d ∧ d < now) := by
  intro db oid uid now
  constructor
  · rintro ⟨db', h⟩
    obtain ⟨o, hfind, hirr, hfg, -⟩ := update_ok_shape db oid uid "failed" now db' h
    have hfgn := hfg rfl
    unfold failedGuard at hfgn
    by_cases hv : o.status = "verified"
    · rw [if_pos hv] at hfgn; cases hfgn
    rw [if_neg hv] at hfgn
    cases hd : o.deadline with
    | none => rw [hd] at hfgn; cases hfgn
    | some d =>
      rw [hd] at hfgn
      dsimp only at hfgn
      by_cases hge : d ≥ now
      · rw [if_pos hge] at hfgn; cases hfgn
      · exact ⟨o, hfind, hv, d, hd, by omega⟩
  · rintro ⟨o, hfind, hv, d, hd, hlt⟩
    refine ⟨_, update_success db oid uid "failed" now o (by decide) hfind ?_ ?_ ?_ ?_ ?_⟩
    · rintro ⟨hterm, hne⟩
      rcases hterm with ht | ht
      · exact hne ht.symm
      · exact hv ht
    · intro _
      unfold failedGuard
      rw [if_neg hv, hd]
      dsimp only
      rw [if_neg (by omega)]
    · rintro (h | h) <;> exact absurd h (by decide)
    · intro h; exact absurd h (by decide)
    · intro h; exact absurd h (by decide)

def exOblDl : Obligation := ⟨1, 1, "ENROLLMENT", "t", "", "pending", some 100, false⟩

def exDbDl : DB := ⟨[exOblDl], [], [], [], [], []⟩

/-- Counterexample to C9 as stated: at the exact instant the deadline is
reached (now = deadline = 100), the code rejects the `failed` request with
`deadlineNotPassed`, where the claim says the request succeeds. -/
theorem failed_at_exact_deadline_rejected :
    exOblDl.status ≠ "verified" ∧ exOblDl.deadline = some 100 ∧
    update_obligation_status exDbDl 1 1 "failed" 100 =
      .error .deadlineNotPassed :=
  ⟨by decide, rfl, rfl⟩

/-- Witness for the amended C9: one second past the deadline the request
succeeds. -/
theorem failed_eligibility_strict_deadline_witness :
    ∃ db', update_obligation_status exDbDl 1 1 "failed" 101 = .ok db' :=
  (failed_eligibility_strict_deadline exDbDl 1 1 101).mpr
    ⟨exOblDl, rfl, by decide, 100, rfl, by decide⟩

/-- C10 — A request for the status the obligation already has is never
rejected as irreversible (part 1); a repeated `verified` request on an
already-verified obligation re-evaluates the dependency, proof and steps
gates, and on success runs the Unblock Propagator again: the returned store
is literally `_propagate_unblock` applied to the written store, so each
successful identical request triggers propagation anew (part 2). -/
theorem same_status_request_reevaluates_gates :
    (∀ db oid uid now o c,
      findObligation db oid uid = some o →
      update_obligation_status db oid uid o.status now ≠
        .error (.irreversible c)) ∧
    (∀ db oid uid now o,
      findObligation db oid uid = some o → o.status = "verified" →
      unmetOf db oid = [] →
      (o.proofRequired = true → oid ∈ db.proofs) →
      ((o.otype = "FAFSA" ∨ o.otype = "SCHOLARSHIP") →
        ¬ ∃ st ∈ db.steps, st.1 = oid ∧ st.2 ≠ "completed") →
      update_obligation_status db oid uid "verified" now =
        .ok (_propagate_unblock (statusWriteDB db oid uid "verified")
          { o with status := "verified" })) := by
  constructor
  · intro db oid uid now o c hfind h
    obtain ⟨o', hfind', hne⟩ := update_irreversible_only db oid uid o.status now c h
    rw [hfind] at hfind'
    cases hfind'
    exact hne rfl
  · intro db oid uid now o hfind hver hun hproof hsteps
    rw [update_success db oid uid "verified" now o (by decide) hfind
      (fun hh => hh.2 hver.symm) (fun hf => absurd hf (by decide))
      (fun _ => hun) (fun _ => hproof) (fun _ => hsteps)]
    unfold updateResultDB
    rw [if_pos rfl]

def exOblVer : Obligation := ⟨1, 1, "APPLICATION_SUBMISSION", "t", "", "verified", none, false⟩

def exDbVer : DB := ⟨[exOblVer], [], [], [], [], []⟩

/-- Witness for C10 on an already-verified obligation. -/
theorem same_status_request_reevaluates_gates_witness :
    update_obligation_status exDbVer 1 1 "verified" 0 ≠
      .error (.irreversible "verified") ∧
    update_obligation_status exDbVer 1 1 "verified" 0 =
      .ok (_propagate_unblock (statusWriteDB exDbVer 1 1 "verified")
        { exOblVer with status := "verified" }) :=
  ⟨same_status_request_reevaluates_gates.1 exDbVer 1 1 0 exOblVer "verified" rfl,
    same_status_request_reevaluates_gates.2 exDbVer 1 1 0 exOblVer rfl rfl rfl
      (fun h => absurd h (by decide)) (fun h => absurd h (by decide))⟩
/-- Unblock-eligibility of a HOUSING_DEPOSIT dependent of a verified
APPLICATION_SUBMISSION source, as the amended C6 states it: same user,
currently blocked, context matching unless the source has no school context,
and no remaining unmet non-overridden dependency. -/
def housingUnblockable (db : DB) (src t : Obligation) : Prop :=
  t.otype = "HOUSING_DEPOSIT" ∧ t.userId = src.userId ∧ t.status = "blocked" ∧
  (_obligation_school_key src = "__no_school__" ∨
    _obligation_school_key t = _obligation_school_key src) ∧
  unmetOf db t.id = []

instance (db : DB) (src t : Obligation) : Decidable (housingUnblockable db src t) := by
  unfold housingUnblockable; infer_instance

/-- C6 (amended) — Unblock propagation scope for a verified
APPLICATION_SUBMISSION source: exactly the `housingUnblockable` rows are
transitioned, each to `pending` and never to any other status, one history
event is appended per unblocked row, nothing else in the store changes, and
no further obligation is touched in the same invocation (one level of
causation).  The context condition is vacuous when the source has no school
context: such a source unblocks eligible targets in any context (the
original claim required sharing the source's context unconditionally). -/
theorem propagation_scope_housing_deposit :
    ∀ db src,
      (db.obligations.map (fun x => x.id)).Nodup →
      src.otype = "APPLICATION_SUBMISSION" →
      _propagate_unblock db src =
        { db with
          obligations := db.obligations.map (fun o =>
            if housingUnblockable db src o then { o with status := "pending" }
            else o)
          history := db.history ++
            (db.obligations.filter (fun o => housingUnblockable db src o)).map
              (propagationEvent src.id src.userId) } := by
  intro db src hid hsrc
  have hiff : ∀ t, unblockEligible db src t ↔ housingUnblockable db src t := by
    intro t
    unfold unblockEligible housingUnblockable loopElig
    rw [hsrc]
    simp only [PROPAGATION_RULES]
    norm_num
    tauto
  rw [_propagate_unblock_char db src hid]
  have hObl : db.obligations.map (fun o =>
      if unblockEligible db src o then { o with status := "pending" } else o) =
      db.obligations.map (fun o =>
        if housingUnblockable db src o then { o with status := "pending" } else o) := by
    refine List.map_congr_left (fun o _ => ?_)
    by_cases h : housingUnblockable db src o
    · rw [if_pos ((hiff o).mpr h), if_pos h]
    · rw [if_neg (fun hh => h ((hiff o).mp hh)), if_neg h]
  have hFil : db.obligations.filter (fun o => unblockEligible db src o) =
      db.obligations.filter (fun o => housingUnblockable db src o) := by
    refine List.filter_congr (fun o _ => ?_)
    exact decide_eq_decide.mpr (hiff o)
  rw [hObl, hFil]

def exSrcNoCtx : Obligation :=
  ⟨1, 1, "APPLICATION_SUBMISSION", "t", "", "verified", none, false⟩

def exHousingX : Obligation :=
  ⟨2, 1, "HOUSING_DEPOSIT", "t", "school:x:1", "blocked", none, false⟩

def exDbProp : DB := ⟨[exSrcNoCtx, exHousingX], [], [], [], [], []⟩

/-- Counterexample to C6 as stated: a source with no school context unblocks
a HOUSING_DEPOSIT target whose school key `x` differs from the source's
sentinel key, so the unblocked set is not restricted to targets sharing the
source's institutional context. -/
theorem propagation_unscoped_source_counterexample :
    _obligation_school_key exSrcNoCtx = "__no_school__" ∧
    _obligation_school_key exHousingX = "x" ∧
    _obligation_school_key exHousingX ≠ _obligation_school_key exSrcNoCtx ∧
    (_propagate_unblock exDbProp exSrcNoCtx).obligations =
      [exSrcNoCtx, { exHousingX with status := "pending" }] := by
  refine ⟨rfl, rfl, by decide, rfl⟩

/-- Witness for the amended C6 at a concrete store. -/
theorem propagation_scope_housing_deposit_witness :
    _propagate_unblock exDbProp exSrcNoCtx =
      { exDbProp with
        obligations := exDbProp.obligations.map (fun o =>
          if housingUnblockable exDbProp exSrcNoCtx o then
            { o with status := "pending" } else o)
        history := exDbProp.history ++
          (exDbProp.obligations.filter
            (fun o => housingUnblockable exDbProp exSrcNoCtx o)).map
            (propagationEvent exSrcNoCtx.id exSrcNoCtx.userId) } :=
  propagation_scope_housing_deposit exDbProp exSrcNoCtx (by decide) rfl

/-- C3 (counterexample) — the deadlock branch of the stuck classifier
reports the string `unmet_dependency`: even with every other blocking
condition also true, a deadlocked obligation's reason is
`unmet_dependency` — not a dedicated deadlock reason, which does not exist
in the `_STUCK_REASONS` taxonomy. -/
theorem deadlock_branch_reports_unmet_dependency :
    classify_stuck_reason true true true true true = some "unmet_dependency" ∧
    some "unmet_dependency" ≠ some "deadlock" ∧
    "deadlock" ∉ _STUCK_REASONS ∧
    classify_stuck_reason true true true true true ≠
      some "hard_deadline_passed" := by
  decide

/-- C3 (amended) — Dominant stuck reason: the classifier is a fixed-priority
cascade (deadlock condition > hard_deadline_passed > unmet_dependency >
missing_proof > overridden_dependency); exactly one reason (an `Option`) is
reported even when several conditions hold; every reported reason belongs to
the `_STUCK_REASONS` taxonomy; the deadlock branch, which outranks all
others, reports the string `unmet_dependency`; and an obligation is stuck
exactly when some branch fired and it is stale. -/
theorem dominant_stuck_reason_priority :
    ∀ d dl um pf ov : Bool,
      (d = true → classify_stuck_reason d dl um pf ov = some "unmet_dependency") ∧
      (d = false → dl = true →
        classify_stuck_reason d dl um pf ov = some "hard_deadline_passed") ∧
      (d = false → dl = false → um = true →
        classify_stuck_reason d dl um pf ov = some "unmet_dependency") ∧
      (d = false → dl = false → um = false → pf = true →
        classify_stuck_reason d dl um pf ov = some "missing_proof") ∧
      (d = false → dl = false → um = false → pf = false → ov = true →
        classify_stuck_reason d dl um pf ov = some "overridden_dependency") ∧
      (d = false → dl = false → um = false → pf = false → ov = false →
        classify_stuck_reason d dl um pf ov = none) ∧
      (classify_stuck_reason d dl um pf ov = none ∨
        ∃ r ∈ _STUCK_REASONS, classify_stuck_reason d dl um pf ov = some r) ∧
      (∀ days : Nat, is_stuck d dl um pf ov days = true ↔
        ((classify_stuck_reason d dl um pf ov).isSome = true ∧
          days ≥ STALE_DAYS)) := by
  intro d dl um pf ov
  refine ⟨?_, ?_, ?_, ?_, ?_, ?_, ?_, ?_⟩
  · intro h; subst h; simp [classify_stuck_reason]
  · intro h1 h2; subst h1; subst h2; simp [classify_stuck_reason]
  · intro h1 h2 h3; subst h1; subst h2; subst h3; simp [classify_stuck_reason]
  · intro h1 h2 h3 h4; subst h1; subst h2; subst h3; subst h4
    simp [classify_stuck_reason]
  · intro h1 h2 h3 h4 h5; subst h1; subst h2; subst h3; subst h4; subst h5
    simp [classify_stuck_reason]
  · intro h1 h2 h3 h4 h5; subst h1; subst h2; subst h3; subst h4; subst h5
    simp [classify_stuck_reason]
  · cases d <;> cases dl <;> cases um <;> cases pf <;> cases ov <;> decide
  · intro days
    simp [is_stuck]

/-- Witness for the amended C3 at concrete flag vectors. -/
theorem dominant_stuck_reason_priority_witness :
    classify_stuck_reason true false false false false = some "unmet_dependency" ∧
    classify_stuck_reason false true true true true = some "hard_deadline_passed" ∧
    is_stuck false true false false false 7 = true := by
  refine ⟨(dominant_stuck_reason_priority true false false false false).1 rfl,
    (dominant_stuck_reason_priority false true true true true).2.1 rfl rfl,
    ((dominant_stuck_reason_priority false true false false false).2.2.2.2.2.2.2
      7).mpr ⟨by decide, by decide⟩⟩
lemma collectNew_mem {l seen : List (Nat × Nat)} {e : Nat × Nat}
    (h : e ∈ collectNew l seen) : e ∈ l ∧ e ∉ seen := by
  induction l generalizing seen with
  | nil => cases h
  | cons e0 rest ih =>
    rw [collectNew] at h
    by_cases h0 : e0 ∈ seen
    · rw [if_pos h0] at h
      obtain ⟨h1, h2⟩ := ih h
      exact ⟨List.mem_cons_of_mem _ h1, h2⟩
    · rw [if_neg h0] at h
      rcases List.mem_cons.mp h with rfl | h
      · exact ⟨List.mem_cons_self _ _, h0⟩
      · obtain ⟨h1, h2⟩ := ih h
        exact ⟨List.mem_cons_of_mem _ h1, fun hs => h2 (List.mem_cons_of_mem _ hs)⟩

lemma collectNew_nodup (l seen : List (Nat × Nat)) : (collectNew l seen).Nodup := by
  induction l generalizing seen with
  | nil => exact List.nodup_nil
  | cons e0 rest ih =>
    rw [collectNew]
    by_cases h0 : e0 ∈ seen
    · rw [if_pos h0]; exact ih seen
    · rw [if_neg h0]
      refine List.nodup_cons.mpr ⟨?_, ih (e0 :: seen)⟩
      intro hmem
      exact (collectNew_mem hmem).2 (List.mem_cons_self _ _)

lemma collectNew_covers (l seen : List (Nat × Nat)) (e : Nat × Nat) (h : e ∈ l) :
    e ∈ seen ∨ e ∈ collectNew l seen := by
  induction l generalizing seen with
  | nil => cases h
  | cons e0 rest ih =>
    rw [collectNew]
    rcases List.mem_cons.mp h with rfl | h
    · by_cases h0 : e ∈ seen
      · exact Or.inl h0
      · rw [if_neg h0]
        exact Or.inr (List.mem_cons_self _ _)
    · by_cases h0 : e0 ∈ seen
      · rw [if_pos h0]; exact ih seen h
      · rw [if_neg h0]
        rcases ih (e0 :: seen) h with hs | hc
        · rcases List.mem_cons.mp hs with rfl | hs
          · exact Or.inr (List.mem_cons_self _ _)
          · exact Or.inl hs
        · exact Or.inr (List.mem_cons_of_mem _ hc)

lemma collectNew_nil_of_all_seen {l seen : List (Nat × Nat)}
    (h : ∀ e ∈ l, e ∈ seen) : collectNew l seen = [] := by
  induction l generalizing seen with
  | nil => rfl
  | cons e0 rest ih =>
    rw [collectNew, if_pos (h e0 (List.mem_cons_self _ _))]
    exact ih (fun e he => h e (List.mem_cons_of_mem _ he))

lemma impliedEdges_fst_mem {obls : List Obligation} {e : Nat × Nat}
    (h : e ∈ impliedEdges obls) : e.1 ∈ obls.map (fun o => o.id) := by
  simp only [impliedEdges, List.mem_flatMap, List.mem_map] at h
  obtain ⟨o, ho, rt, hrt, p, hp, he⟩ := h
  subst he
  exact List.mem_map.mpr ⟨o, ho, rfl⟩

/-- The `edges_to_create` batch of one resolver pass on a user's obligations. -/
def resolverCreated (db : DB) (uid : Nat) : List (Nat × Nat) :=
  collectNew (impliedEdges (db.obligations.filter (fun o => o.userId = uid)))
    (db.deps.filter (fun e =>
      e.1 ∈ (db.obligations.filter (fun o => o.userId = uid)).map (fun o => o.id)))

/-- C7 — Idempotence of dependency evaluation.  One resolver pass only
appends: the new store's edges are the old edges followed by the created
batch; every created edge is an implied edge that was missing, the batch has
no duplicates, and obligations are untouched.  Running the pass again on the
unchanged obligation set creates zero new edges and leaves the edge table
exactly as it was. -/
theorem evaluate_dependencies_idempotent :
    ∀ db uid,
      ((evaluate_obligation_dependencies db uid).1.obligations =
        db.obligations) ∧
      ((evaluate_obligation_dependencies db uid).1.deps =
        db.deps ++ resolverCreated db uid) ∧
      ((evaluate_obligation_dependencies db uid).2 =
        (resolverCreated db uid).length) ∧
      (resolverCreated db uid).Nodup ∧
      (∀ e ∈ resolverCreated db uid,
        e ∈ impliedEdges (db.obligations.filter (fun o => o.userId = uid)) ∧
        e ∉ db.deps) ∧
      ((evaluate_obligation_dependencies
          (evaluate_obligation_dependencies db uid).1 uid).2 = 0) ∧
      ((evaluate_obligation_dependencies
          (evaluate_obligation_dependencies db uid).1 uid).1.deps =
        (evaluate_obligation_dependencies db uid).1.deps) := by
  intro db uid
  refine ⟨rfl, rfl, rfl, collectNew_nodup _ _, ?_, ?_⟩
  · intro e he
    obtain ⟨h1, h2⟩ := collectNew_mem he
    refine ⟨h1, fun hd => ?_⟩
    exact h2 (List.mem_filter.mpr ⟨hd, by
      simpa using impliedEdges_fst_mem h1⟩)
  · have key : collectNew
        (impliedEdges (db.obligations.filter (fun o => o.userId = uid)))
        ((db.deps ++ resolverCreated db uid).filter (fun e =>
          e.1 ∈ (db.obligations.filter (fun o => o.userId = uid)).map
            (fun o => o.id))) = [] := by
      refine collectNew_nil_of_all_seen (fun e he => ?_)
      rw [List.filter_append]
      have hfst : e.1 ∈ (db.obligations.filter (fun o => o.userId = uid)).map
          (fun o => o.id) := impliedEdges_fst_mem he
      rcases collectNew_covers _ (db.deps.filter (fun e =>
          e.1 ∈ (db.obligations.filter (fun o => o.userId = uid)).map
            (fun o => o.id))) e he with hs | hc
      · exact List.mem_append_left _ hs
      · refine List.mem_append_right _ ?_
        exact List.mem_filter.mpr ⟨hc, by simpa using hfst⟩
    constructor
    · show (collectNew
        (impliedEdges (db.obligations.filter (fun o => o.userId = uid)))
        ((db.deps ++ resolverCreated db uid).filter (fun e =>
          e.1 ∈ (db.obligations.filter (fun o => o.userId = uid)).map
            (fun o => o.id)))).length = 0
      rw [key]
      rfl
    · show (db.deps ++ resolverCreated db uid) ++ collectNew
        (impliedEdges (db.obligations.filter (fun o => o.userId = uid)))
        ((db.deps ++ resolverCreated db uid).filter (fun e =>
          e.1 ∈ (db.obligations.filter (fun o => o.userId = uid)).map
            (fun o => o.id))) = db.deps ++ resolverCreated db uid
      rw [key, List.append_nil]
lemma race_eq (db : DB) (uid : Nat) (concurrent : List (Nat × Nat)) :
    evaluate_obligation_dependencies_race db uid concurrent =
      (if resolverCreated db uid = [] then
        ({ db with deps := db.deps ++ concurrent }, 0)
      else if ∃ e ∈ resolverCreated db uid, e ∈ db.deps ++ concurrent then
        ({ db with deps := db.deps ++ concurrent }, 0)
      else
        ({ db with deps := db.deps ++ concurrent ++ resolverCreated db uid },
          (resolverCreated db uid).length)) := rfl

/-- C8 (amended) — Resolver batch-insert failure semantics.  The pass always
returns (the caught insert exception never aborts the endpoint, and the
obligations read from the snapshot are untouched); but the batch insert is a
single all-or-nothing statement: when some computed edge already exists in
the physical table (for example inserted concurrently — a duplicate key),
the whole batch fails, `dependencies_created` is 0 and none of the pass's
missing edges is created, not even those that do not conflict; only when no
computed edge conflicts are they all created. -/
theorem resolver_batch_insert_all_or_nothing :
    ∀ db uid concurrent,
      ((evaluate_obligation_dependencies_race db uid concurrent).1.obligations =
        db.obligations) ∧
      ((∃ e ∈ resolverCreated db uid, e ∈ db.deps ++ concurrent) →
        (evaluate_obligation_dependencies_race db uid concurrent).2 = 0 ∧
        (∀ e' ∈ resolverCreated db uid, e' ∉ concurrent →
          e' ∉ (evaluate_obligation_dependencies_race db uid concurrent).1.deps)) ∧
      ((∀ e ∈ resolverCreated db uid, e ∉ db.deps ++ concurrent) →
        (evaluate_obligation_dependencies_race db uid concurrent).2 =
          (resolverCreated db uid).length ∧
        (∀ e' ∈ resolverCreated db uid,
          e' ∈ (evaluate_obligation_dependencies_race db uid concurrent).1.deps)) := by
  intro db uid concurrent
  have hnotdeps : ∀ e' ∈ resolverCreated db uid, e' ∉ db.deps := by
    intro e' he' hd
    obtain ⟨h1, h2⟩ := collectNew_mem he'
    exact h2 (List.mem_filter.mpr ⟨hd, by simpa using impliedEdges_fst_mem h1⟩)
  rw [race_eq]
  refine ⟨?_, ?_, ?_⟩
  · split
    · rfl
    · split <;> rfl
  · intro hconf
    have hcne : ¬ (resolverCreated db uid = []) := by
      rintro hnil
      obtain ⟨e, he, -⟩ := hconf
      rw [hnil] at he
      cases he
    rw [if_neg hcne, if_pos hconf]
    refine ⟨rfl, ?_⟩
    intro e' he' hnc hmem
    rcases List.mem_append.mp hmem with h | h
    · exact hnotdeps e' he' h
    · exact hnc h
  · intro hok
    by_cases hcne : resolverCreated db uid = []
    · rw [if_pos hcne, hcne]
      exact ⟨rfl, fun e' he' => absurd he' (List.not_mem_nil e')⟩
    · have hnc : ¬ ∃ e ∈ resolverCreated db uid, e ∈ db.deps ++ concurrent := by
        rintro ⟨e, he, hmem⟩
        exact hok e he hmem
      rw [if_neg hcne, if_neg hnc]
      exact ⟨rfl, fun e' he' => List.mem_append_right _ he'⟩

def exOblC8A : Obligation :=
  ⟨1, 1, "APPLICATION_SUBMISSION", "t", "", "pending", none, false⟩

def exOblC8F : Obligation := ⟨2, 1, "APPLICATION_FEE", "t", "", "pending", none, false⟩

def exOblC8S : Obligation :=
  ⟨3, 1, "SCHOLARSHIP_ACCEPTANCE", "t", "", "pending", none, false⟩

def exOblC8C : Obligation := ⟨4, 1, "ACCEPTANCE", "t", "", "pending", none, false⟩

def exDbC8 : DB := ⟨[exOblC8A, exOblC8F, exOblC8S, exOblC8C], [], [], [], [], []⟩

/-- Counterexample to C8 as stated: the pass computes the two missing edges
(1,2) and (3,4); a concurrent insert of (1,2) makes the batch insert fail,
and the other computed edge (3,4) is NOT created — the resolver does not
"still create every other missing edge" after a partial failure. -/
theorem resolver_partial_failure_counterexample :
    resolverCreated exDbC8 1 = [(1, 2), (3, 4)] ∧
    (evaluate_obligation_dependencies_race exDbC8 1 [(1, 2)]).2 = 0 ∧
    (3, 4) ∉ (evaluate_obligation_dependencies_race exDbC8 1 [(1, 2)]).1.deps ∧
    (3, 4) ∈ (evaluate_obligation_dependencies exDbC8 1).1.deps := by
  refine ⟨rfl, by decide, by decide, by decide⟩

/-- Witness for the amended C8: the failing batch at the concrete store, and
the fully successful batch with no concurrent writer. -/
theorem resolver_batch_insert_all_or_nothing_witness :
    ((evaluate_obligation_dependencies_race exDbC8 1 [(1, 2)]).2 = 0 ∧
      (∀ e' ∈ resolverCreated exDbC8 1, e' ∉ [((1 : Nat), (2 : Nat))] →
        e' ∉ (evaluate_obligation_dependencies_race exDbC8 1 [(1, 2)]).1.deps)) ∧
    ((evaluate_obligation_dependencies_race exDbC8 1 []).2 =
      (resolverCreated exDbC8 1).length) :=
  ⟨(resolver_batch_insert_all_or_nothing exDbC8 1 [(1, 2)]).2.1
      ⟨(1, 2), by decide, by decide⟩,
    ((resolver_batch_insert_all_or_nothing exDbC8 1 []).2.2
      (by decide)).1⟩
/-- C4 — Severity classifier: `_compute_severity` is a pure function (a Lean
function of its four inputs, hence deterministic and side-effect-free) that
agrees with the spec's ordered first-match rule list `severitySpecRules` on
every input; in particular a stuck pending obligation due in 2 days is
(critical, stuck_deadline_imminent), a non-stuck pending obligation due in
10 days is (elevated, deadline_approaching), and a verified obligation is
always (normal, verified). -/
theorem severity_classifier_matches_spec :
    (∀ status deadline stuck now,
      _compute_severity status deadline stuck now =
        severitySpecRules status deadline stuck now) ∧
    (∀ now : Int, _compute_severity "pending" (some (now + 2 * 86400)) true now =
      ("critical", "stuck_deadline_imminent")) ∧
    (∀ now : Int, _compute_severity "pending" (some (now + 10 * 86400)) false now =
      ("elevated", "deadline_approaching")) ∧
    (∀ deadline stuck now, _compute_severity "verified" deadline stuck now =
      ("normal", "verified")) := by
  refine ⟨?_, ?_, ?_, ?_⟩
  · intro status deadline stuck now
    unfold _compute_severity severitySpecRules
    cases deadline <;> dsimp only <;> split_ifs <;> rfl
  · intro now
    unfold _compute_severity
    have h1 : ¬ (now + 2 * 86400 - now < 0) := by omega
    have h2 : now + 2 * 86400 - now ≤ 3 * 86400 := by omega
    simp [h1, h2]
  · intro now
    unfold _compute_severity
    have h1 : ¬ (now + 10 * 86400 - now < 0) := by omega
    have h2 : ¬ (now + 10 * 86400 - now ≤ 3 * 86400) := by omega
    have h3 : now + 10 * 86400 - now ≤ 14 * 86400 := by omega
    simp [h1, h2, h3]
  · intro deadline stuck now
    rfl
lemma reach_head {g : List (Nat × Nat)} {v w u : Nat}
    (h : EdgeRel g v w) (hr : Reach g w u) : Reach g v u :=
  Relation.ReflTransGen.head h hr

lemma reach_tail {g : List (Nat × Nat)} {v w u : Nat}
    (hr : Reach g v w) (h : EdgeRel g w u) : Reach g v u :=
  Relation.ReflTransGen.tail hr h

lemma onCycle_of_back_edge {g : List (Nat × Nat)} {v w : Nat}
    (h : EdgeRel g v w) (hr : Reach g w v) : OnCycle g w := by
  rcases Relation.ReflTransGen.cases_head hr with heq | ⟨x, hx, hxv⟩
  · subst heq
    exact ⟨w, h, Relation.ReflTransGen.refl⟩
  · exact ⟨x, hx, reach_tail hxv h⟩

lemma rc_step {g : List (Nat × Nat)} {v w : Nat}
    (h : EdgeRel g v w) (hrc : ReachesCycle g w) : ReachesCycle g v := by
  obtain ⟨u, hr, hc⟩ := hrc
  exact ⟨u, reach_head h hr, hc⟩

lemma reachesCycle_iff_step {g : List (Nat × Nat)} (v : Nat) :
    ReachesCycle g v ↔ ∃ w, EdgeRel g v w ∧ ReachesCycle g w := by
  constructor
  · rintro ⟨u, hr, hc⟩
    rcases Relation.ReflTransGen.cases_head hr with heq | ⟨x, hx, hxu⟩
    · subst heq
      obtain ⟨w, hw, hwv⟩ := hc
      exact ⟨w, hw, ⟨w, Relation.ReflTransGen.refl, onCycle_of_back_edge hw hwv⟩⟩
    · exact ⟨x, hx, ⟨u, hxu, hc⟩⟩
  · rintro ⟨w, hw, hrc⟩
    exact rc_step hw hrc

lemma mem_succsOf {g : List (Nat × Nat)} {v w : Nat} :
    w ∈ succsOf g v ↔ (v, w) ∈ g := by
  simp only [succsOf, List.mem_map, List.mem_filter]
  constructor
  · rintro ⟨⟨a, b⟩, ⟨hm, he⟩, rfl⟩
    simp only [decide_eq_true_eq] at he
    subst he
    exact hm
  · intro hm
    exact ⟨(v, w), ⟨hm, by simp⟩, rfl⟩

lemma fst_mem_nodesOf {g : List (Nat × Nat)} {v w : Nat} (h : EdgeRel g v w) :
    v ∈ nodesOf g := by
  unfold nodesOf
  exact List.mem_append_left _ (List.mem_map.mpr ⟨(v, w), h, rfl⟩)

lemma snd_mem_nodesOf {g : List (Nat × Nat)} {v w : Nat} (h : EdgeRel g v w) :
    w ∈ nodesOf g := by
  unfold nodesOf
  exact List.mem_append_right _ (List.mem_map.mpr ⟨(v, w), h, rfl⟩)

lemma rc_mem_nodesOf {g : List (Nat × Nat)} {v : Nat} (h : ReachesCycle g v) :
    v ∈ nodesOf g := by
  obtain ⟨w, hw, -⟩ := (reachesCycle_iff_step v).mp h
  exact fst_mem_nodesOf hw

lemma stack_reach {g : List (Nat × Nat)} :
    ∀ (l : List Nat), List.Chain' (fun a b => EdgeRel g b a) l →
      ∀ w ∈ l, ∀ v, l.head? = some v → Reach g w v := by
  intro l
  induction l with
  | nil => intro _ w hw; cases hw
  | cons a t ih =>
    intro hch w hw v hv
    rw [List.head?_cons, Option.some.injEq] at hv
    subst hv
    rcases List.mem_cons.mp hw with rfl | hw
    · exact Relation.ReflTransGen.refl
    · cases t with
      | nil => cases hw
      | cons b t' =>
        have h1 : EdgeRel g b a := (List.chain'_cons.mp hch).1
        have h2 := (List.chain'_cons.mp hch).2
        exact reach_tail (ih h2 w hw b rfl) h1

/-- Number of graph nodes not yet visited; the fuel bound of the DFS. -/
def unvisCount (g : List (Nat × Nat)) (st : DfsSt) : Nat :=
  ((nodesOf g).dedup.filter (fun x => x ∉ st.visited)).length

lemma length_filter_mono {α : Type} (l : List α) (p q : α → Bool)
    (h : ∀ x ∈ l, p x = true → q x = true) :
    (l.filter p).length ≤ (l.filter q).length := by
  induction l with
  | nil => simp
  | cons a t ih =>
    have iht := ih (fun x hx => h x (List.mem_cons_of_mem _ hx))
    simp only [List.filter_cons]
    by_cases hp : p a = true
    · rw [if_pos hp, if_pos (h a (List.mem_cons_self _ _) hp)]
      simpa using iht
    · rw [if_neg hp]
      by_cases hq : q a = true
      · rw [if_pos hq]
        exact Nat.le_succ_of_le iht
      · rw [if_neg hq]
        exact iht

lemma length_filter_cons_vis_lt (l vis : List Nat) (v : Nat)
    (hv : v ∈ l) (hnv : v ∉ vis) :
    (l.filter (fun x => x ∉ v :: vis)).length <
      (l.filter (fun x => x ∉ vis)).length := by
  induction l with
  | nil => cases hv
  | cons a t ih =>
    simp only [List.filter_cons]
    by_cases hav : a = v
    · subst hav
      rw [if_neg (by simp), if_pos (by simpa using hnv)]
      have hle := length_filter_mono t (fun x => decide (x ∉ a :: vis))
        (fun x => decide (x ∉ vis)) (by
          intro x hx hp
          simp only [decide_eq_true_eq] at hp ⊢
          exact fun hmem => hp (List.mem_cons_of_mem _ hmem))
      simp only [List.length_cons]
      omega
    · rcases List.mem_cons.mp hv with rfl | hvt
      · exact absurd rfl hav
      have hlt := ih hvt
      by_cases ha : a ∈ vis
      · rw [if_neg (by simp [ha]), if_neg (by simp [ha])]
        exact hlt
      · rw [if_pos (by simp [hav, ha]), if_pos (by simp [ha])]
        simp only [List.length_cons]
        omega

lemma unvisCount_visit_lt (g : List (Nat × Nat)) (st : DfsSt) (v : Nat)
    (hv : v ∈ nodesOf g) (hnv : v ∉ st.visited) :
    ∀ stk : List Nat,
      unvisCount g ⟨v :: st.visited, stk, st.dead⟩ < unvisCount g st := by
  intro stk
  unfold unvisCount
  exact length_filter_cons_vis_lt _ _ _ (List.mem_dedup.mpr hv) hnv

lemma unvisCount_mono (g : List (Nat × Nat)) (st st' : DfsSt)
    (h : ∀ x ∈ st.visited, x ∈ st'.visited) :
    unvisCount g st' ≤ unvisCount g st := by
  unfold unvisCount
  refine length_filter_mono _ _ _ (fun x _ hp => ?_)
  simp only [decide_eq_true_eq] at hp ⊢
  exact fun hmem => hp (h x hmem)

lemma unvisCount_le (g : List (Nat × Nat)) (st : DfsSt) :
    unvisCount g st ≤ (nodesOf g).length := by
  unfold unvisCount
  calc ((nodesOf g).dedup.filter (fun x => x ∉ st.visited)).length
      ≤ (nodesOf g).dedup.length := (List.filter_sublist _).length_le
    _ ≤ (nodesOf g).length := (List.dedup_sublist _).length_le
/-- DFS state invariant: the stack is a duplicate-free path of visited
nodes (each stack entry has an edge to the entry above it), the deadlocked
set is sound (every member reaches a cycle), and settled nodes (visited,
off-stack) are complete (every settled node that reaches a cycle is already
marked deadlocked). -/
structure GoodSt (g : List (Nat × Nat)) (st : DfsSt) : Prop where
  stack_vis : ∀ x ∈ st.stack, x ∈ st.visited
  stack_nodup : st.stack.Nodup
  stack_chain : List.Chain' (fun a b => EdgeRel g b a) st.stack
  dead_vis : ∀ x ∈ st.dead, x ∈ st.visited
  dead_sound : ∀ x ∈ st.dead, ReachesCycle g x
  settled_complete : ∀ x ∈ st.visited, x ∉ st.stack → ReachesCycle g x → x ∈ st.dead

/-- Precondition of `dfsVisit g fuel v st`. -/
def VisitPre (g : List (Nat × Nat)) (fuel v : Nat) (st : DfsSt) : Prop :=
  GoodSt g st ∧ v ∉ st.visited ∧ v ∈ nodesOf g ∧
  (∀ h, st.stack.head? = some h → EdgeRel g h v) ∧
  unvisCount g st < fuel

/-- Postcondition of `dfsVisit g fuel v st = r`. -/
structure VisitPost (g : List (Nat × Nat)) (v : Nat) (st : DfsSt)
    (r : Bool × DfsSt) : Prop where
  good : GoodSt g r.2
  stack_eq : r.2.stack = st.stack
  vis_mono : ∀ x ∈ st.visited, x ∈ r.2.visited
  v_vis : v ∈ r.2.visited
  dead_mono : ∀ x ∈ st.dead, x ∈ r.2.dead
  flag_iff : r.1 = true ↔ v ∈ r.2.dead
  stack_dead_stable : r.1 = false → ∀ x ∈ st.stack, x ∈ r.2.dead → x ∈ st.dead

/-- Precondition of the successor loop at `v` with remaining list `ws`. -/
def LoopPre (g : List (Nat × Nat)) (fuel v : Nat) (ws : List Nat)
    (st : DfsSt) : Prop :=
  GoodSt g st ∧ (∀ w ∈ ws, EdgeRel g v w) ∧ v ∈ st.visited ∧
  st.stack.head? = some v ∧ unvisCount g st < fuel

/-- Postcondition of the successor loop. -/
structure LoopPost (g : List (Nat × Nat)) (v : Nat) (ws : List Nat)
    (st : DfsSt) (r : Bool × DfsSt) : Prop where
  good : GoodSt g r.2
  stack_eq : r.2.stack = st.stack
  vis_mono : ∀ x ∈ st.visited, x ∈ r.2.visited
  dead_mono : ∀ x ∈ st.dead, x ∈ r.2.dead
  flag_dead : r.1 = true → v ∈ r.2.dead
  stack_dead_stable : r.1 = false → ∀ x ∈ st.stack, x ∈ r.2.dead → x ∈ st.dead
  covers : ∀ w ∈ ws, v ∈ r.2.dead ∨ ¬ ReachesCycle g w

lemma dfsSuccs_cons_stack (dfs1 : Nat → DfsSt → Bool × DfsSt) (v w : Nat)
    (rest : List Nat) (st : DfsSt) (h : w ∈ st.stack) :
    dfsSuccs dfs1 v (w :: rest) st =
      (true, (dfsSuccs dfs1 v rest { st with dead := w :: v :: st.dead }).2) := by
  rw [dfsSuccs, if_pos h]

lemma dfsSuccs_cons_unvis (dfs1 : Nat → DfsSt → Bool × DfsSt) (v w : Nat)
    (rest : List Nat) (st : DfsSt) (h1 : w ∉ st.stack) (h2 : w ∉ st.visited) :
    dfsSuccs dfs1 v (w :: rest) st =
      ((dfs1 w st).1 ||
        (dfsSuccs dfs1 v rest (if (dfs1 w st).1 = true then
          { (dfs1 w st).2 with dead := v :: (dfs1 w st).2.dead }
        else (dfs1 w st).2)).1,
       (dfsSuccs dfs1 v rest (if (dfs1 w st).1 = true then
          { (dfs1 w st).2 with dead := v :: (dfs1 w st).2.dead }
        else (dfs1 w st).2)).2) := by
  rw [dfsSuccs, if_neg h1, if_pos h2]

lemma dfsSuccs_cons_dead (dfs1 : Nat → DfsSt → Bool × DfsSt) (v w : Nat)
    (rest : List Nat) (st : DfsSt) (h1 : w ∉ st.stack) (h2 : ¬ w ∉ st.visited)
    (h3 : w ∈ st.dead) :
    dfsSuccs dfs1 v (w :: rest) st =
      (true, (dfsSuccs dfs1 v rest { st with dead := v :: st.dead }).2) := by
  rw [dfsSuccs, if_neg h1, if_neg h2, if_pos h3]

lemma dfsSuccs_cons_skip (dfs1 : Nat → DfsSt → Bool × DfsSt) (v w : Nat)
    (rest : List Nat) (st : DfsSt) (h1 : w ∉ st.stack) (h2 : ¬ w ∉ st.visited)
    (h3 : w ∉ st.dead) :
    dfsSuccs dfs1 v (w :: rest) st = dfsSuccs dfs1 v rest st := by
  rw [dfsSuccs, if_neg h1, if_neg h2, if_neg h3]

theorem dfsSuccs_spec (g : List (Nat × Nat)) (fuel : Nat)
    (hdfs : ∀ v st, VisitPre g fuel v st →
      VisitPost g v st (dfsVisit g fuel v st)) :
    ∀ (ws : List Nat) (v : Nat) (st : DfsSt), LoopPre g fuel v ws st →
      LoopPost g v ws st (dfsSuccs (dfsVisit g fuel) v ws st) := by
  intro ws
  induction ws with
  | nil =>
    intro v st hpre
    rw [dfsSuccs]
    exact ⟨hpre.1, rfl, fun x hx => hx, fun x hx => hx,
      fun h => Bool.noConfusion h, fun _ x _ hx => hx,
      fun w hw => absurd hw (List.not_mem_nil w)⟩
  | cons w rest ih =>
    intro v st hpre
    obtain ⟨hgs, hedges, hvvis, hhead, hfuel⟩ := hpre
    have hvw : EdgeRel g v w := hedges w (List.mem_cons_self _ _)
    have hedges' : ∀ u ∈ rest, EdgeRel g v u :=
      fun u hu => hedges u (List.mem_cons_of_mem _ hu)
    have hvstack : v ∈ st.stack := by
      cases hs : st.stack with
      | nil => rw [hs] at hhead; cases hhead
      | cons a t =>
        rw [hs] at hhead
        rw [List.head?_cons, Option.some.injEq] at hhead
        subst hhead
        exact List.mem_cons_self _ _
    by_cases hws : w ∈ st.stack
    · rw [dfsSuccs_cons_stack _ _ _ _ _ hws]
      -- back edge: w reaches v along the stack, v → w closes a cycle
      have hreach : Reach g w v := stack_reach st.stack hgs.stack_chain w hws v hhead
      have hocw : OnCycle g w := onCycle_of_back_edge hvw hreach
      have hrcw : ReachesCycle g w := ⟨w, Relation.ReflTransGen.refl, hocw⟩
      have hrcv : ReachesCycle g v := rc_step hvw hrcw
      have hgs1 : GoodSt g ⟨st.visited, st.stack, w :: v :: st.dead⟩ :=
        { stack_vis := hgs.stack_vis
          stack_nodup := hgs.stack_nodup
          stack_chain := hgs.stack_chain
          dead_vis := by
            intro x hx
            rcases List.mem_cons.mp hx with rfl | hx
            · exact hgs.stack_vis x hws
            rcases List.mem_cons.mp hx with rfl | hx
            · exact hvvis
            · exact hgs.dead_vis x hx
          dead_sound := by
            intro x hx
            rcases List.mem_cons.mp hx with rfl | hx
            · exact hrcw
            rcases List.mem_cons.mp hx with rfl | hx
            · exact hrcv
            · exact hgs.dead_sound x hx
          settled_complete := by
            intro x hx hnst hrc
            exact List.mem_cons_of_mem _ (List.mem_cons_of_mem _
              (hgs.settled_complete x hx hnst hrc)) }
      have hres := ih v ⟨st.visited, st.stack, w :: v :: st.dead⟩
        ⟨hgs1, hedges', hvvis, hhead, lt_of_le_of_lt
          (unvisCount_mono g st ⟨st.visited, st.stack, w :: v :: st.dead⟩
            (fun x hx => hx)) hfuel⟩
      refine ⟨hres.good, hres.stack_eq, hres.vis_mono, ?_, ?_, ?_, ?_⟩
      · intro x hx
        exact hres.dead_mono x (List.mem_cons_of_mem _ (List.mem_cons_of_mem _ hx))
      · intro _
        exact hres.dead_mono v (List.mem_cons_of_mem _ (List.mem_cons_self _ _))
      · intro hfalse
        simp at hfalse
      · intro u hu
        rcases List.mem_cons.mp hu with rfl | hu
        · exact Or.inl (hres.dead_mono v (List.mem_cons_of_mem _ (List.mem_cons_self _ _)))
        · exact hres.covers u hu
    · by_cases hwvis : w ∉ st.visited
      · rw [dfsSuccs_cons_unvis _ _ _ _ _ hws hwvis]
        have hwnodes : w ∈ nodesOf g := snd_mem_nodesOf hvw
        have hvpost := hdfs w st ⟨hgs, hwvis, hwnodes,
          (fun h hh => by rw [hhead, Option.some.injEq] at hh; subst hh; exact hvw),
          hfuel⟩
        by_cases hb : (dfsVisit g fuel w st).1 = true
        · -- child reaches a cycle: mark v
          rw [hb, if_pos rfl]
          simp only [Bool.true_or]
          have hrcw : ReachesCycle g w :=
            hvpost.good.dead_sound w (hvpost.flag_iff.mp hb)
          have hrcv : ReachesCycle g v := rc_step hvw hrcw
          have hvvis1 : v ∈ (dfsVisit g fuel w st).2.visited := hvpost.vis_mono v hvvis
          have hgs2 : GoodSt g ⟨(dfsVisit g fuel w st).2.visited, (dfsVisit g fuel w st).2.stack, v :: (dfsVisit g fuel w st).2.dead⟩ :=
            { stack_vis := hvpost.good.stack_vis
              stack_nodup := hvpost.good.stack_nodup
              stack_chain := hvpost.good.stack_chain
              dead_vis := by
                intro x hx
                rcases List.mem_cons.mp hx with rfl | hx
                · exact hvvis1
                · exact hvpost.good.dead_vis x hx
              dead_sound := by
                intro x hx
                rcases List.mem_cons.mp hx with rfl | hx
                · exact hrcv
                · exact hvpost.good.dead_sound x hx
              settled_complete := by
                intro x hx hnst hrc
                exact List.mem_cons_of_mem _
                  (hvpost.good.settled_complete x hx hnst hrc) }
          have hres := ih v ⟨(dfsVisit g fuel w st).2.visited, (dfsVisit g fuel w st).2.stack, v :: (dfsVisit g fuel w st).2.dead⟩
            ⟨hgs2, hedges', hvvis1, by rw [hvpost.stack_eq]; exact hhead,
              lt_of_le_of_lt (unvisCount_mono g st _ hvpost.vis_mono) hfuel⟩
          refine ⟨hres.good, by rw [hres.stack_eq]; exact hvpost.stack_eq,
            fun x hx => hres.vis_mono x (hvpost.vis_mono x hx), ?_, ?_, ?_, ?_⟩
          · intro x hx
            exact hres.dead_mono x (List.mem_cons_of_mem _ (hvpost.dead_mono x hx))
          · intro _
            exact hres.dead_mono v (List.mem_cons_self _ _)
          · intro hfalse
            simp at hfalse
          · intro u hu
            rcases List.mem_cons.mp hu with rfl | hu
            · exact Or.inl (hres.dead_mono v (List.mem_cons_self _ _))
            · exact hres.covers u hu
        · -- child does not reach a cycle: w is settled and not deadlocked
          have hbf : (dfsVisit g fuel w st).1 = false := by
            cases hr1 : (dfsVisit g fuel w st).1
            · rfl
            · exact absurd hr1 hb
          rw [hbf, if_neg (by decide : ¬ ((false : Bool) = true))]
          simp only [Bool.false_or]
          have hwnotdead : w ∉ (dfsVisit g fuel w st).2.dead := by
            intro hmem
            exact hb (hvpost.flag_iff.mpr hmem)
          have hnrcw : ¬ ReachesCycle g w := by
            intro hrc
            exact hwnotdead (hvpost.good.settled_complete w hvpost.v_vis
              (by rw [hvpost.stack_eq]; exact hws) hrc)
          have hres := ih v (dfsVisit g fuel w st).2
            ⟨hvpost.good, hedges', hvpost.vis_mono v hvvis,
              by rw [hvpost.stack_eq]; exact hhead,
              lt_of_le_of_lt (unvisCount_mono g st _ hvpost.vis_mono) hfuel⟩
          refine ⟨hres.good, by rw [hres.stack_eq]; exact hvpost.stack_eq,
            fun x hx => hres.vis_mono x (hvpost.vis_mono x hx),
            fun x hx => hres.dead_mono x (hvpost.dead_mono x hx), ?_, ?_, ?_⟩
          · intro hor
            exact hres.flag_dead hor
          · intro hor x hx hdead
            exact hvpost.stack_dead_stable hbf x hx
              (hres.stack_dead_stable hor x (by rw [hvpost.stack_eq]; exact hx) hdead)
          · intro u hu
            rcases List.mem_cons.mp hu with rfl | hu
            · exact Or.inr hnrcw
            · exact hres.covers u hu
      · by_cases hwdead : w ∈ st.dead
        · rw [dfsSuccs_cons_dead _ _ _ _ _ hws hwvis hwdead]
          push_neg at hwvis
          have hrcw : ReachesCycle g w := hgs.dead_sound w hwdead
          have hrcv : ReachesCycle g v := rc_step hvw hrcw
          have hgs1 : GoodSt g ⟨st.visited, st.stack, v :: st.dead⟩ :=
            { stack_vis := hgs.stack_vis
              stack_nodup := hgs.stack_nodup
              stack_chain := hgs.stack_chain
              dead_vis := by
                intro x hx
                rcases List.mem_cons.mp hx with rfl | hx
                · exact hvvis
                · exact hgs.dead_vis x hx
              dead_sound := by
                intro x hx
                rcases List.mem_cons.mp hx with rfl | hx
                · exact hrcv
                · exact hgs.dead_sound x hx
              settled_complete := by
                intro x hx hnst hrc
                exact List.mem_cons_of_mem _ (hgs.settled_complete x hx hnst hrc) }
          have hres := ih v ⟨st.visited, st.stack, v :: st.dead⟩
            ⟨hgs1, hedges', hvvis, hhead,
              lt_of_le_of_lt (unvisCount_mono g st _ (fun x hx => hx)) hfuel⟩
          refine ⟨hres.good, hres.stack_eq, hres.vis_mono, ?_, ?_, ?_, ?_⟩
          · intro x hx
            exact hres.dead_mono x (List.mem_cons_of_mem _ hx)
          · intro _
            exact hres.dead_mono v (List.mem_cons_self _ _)
          · intro hfalse
            simp at hfalse
          · intro u hu
            rcases List.mem_cons.mp hu with rfl | hu
            · exact Or.inl (hres.dead_mono v (List.mem_cons_self _ _))
            · exact hres.covers u hu
        · rw [dfsSuccs_cons_skip _ _ _ _ _ hws hwvis hwdead]
          push_neg at hwvis
          have hnrcw : ¬ ReachesCycle g w := by
            intro hrc
            exact hwdead (hgs.settled_complete w hwvis hws hrc)
          have hres := ih v st ⟨hgs, hedges', hvvis, hhead, hfuel⟩
          refine ⟨hres.good, hres.stack_eq, hres.vis_mono, hres.dead_mono,
            hres.flag_dead, hres.stack_dead_stable, ?_⟩
          intro u hu
          rcases List.mem_cons.mp hu with rfl | hu
          · exact Or.inr hnrcw
          · exact hres.covers u hu
theorem dfsVisit_spec (g : List (Nat × Nat)) :
    ∀ fuel v st, VisitPre g fuel v st → VisitPost g v st (dfsVisit g fuel v st) := by
  intro fuel
  induction fuel with
  | zero =>
    intro v st hpre
    exact absurd hpre.2.2.2.2 (Nat.not_lt_zero _)
  | succ fuel ih =>
    intro v st hpre
    obtain ⟨hgs, hnvis, hnodes, hhead, hfuel⟩ := hpre
    have hvnstack : v ∉ st.stack := fun hmem => hnvis (hgs.stack_vis v hmem)
    have hgs1 : GoodSt g ⟨v :: st.visited, v :: st.stack, st.dead⟩ :=
      { stack_vis := by
          intro x hx
          rcases List.mem_cons.mp hx with rfl | hx
          · exact List.mem_cons_self _ _
          · exact List.mem_cons_of_mem _ (hgs.stack_vis x hx)
        stack_nodup := List.nodup_cons.mpr ⟨hvnstack, hgs.stack_nodup⟩
        stack_chain := by
          refine List.chain'_cons'.mpr ⟨?_, hgs.stack_chain⟩
          intro b hb
          exact hhead b hb
        dead_vis := fun x hx => List.mem_cons_of_mem _ (hgs.dead_vis x hx)
        dead_sound := hgs.dead_sound
        settled_complete := by
          intro x hx hnst hrc
          have hxv : x ≠ v := fun heq => hnst (heq ▸ List.mem_cons_self _ _)
          rcases List.mem_cons.mp hx with rfl | hx
          · exact absurd rfl hxv
          · exact hgs.settled_complete x hx
              (fun hmem => hnst (List.mem_cons_of_mem _ hmem)) hrc }
    have hpre1 : LoopPre g fuel v (succsOf g v)
        ⟨v :: st.visited, v :: st.stack, st.dead⟩ :=
      ⟨hgs1, fun w hw => mem_succsOf.mp hw, List.mem_cons_self _ _, rfl,
        lt_of_lt_of_le
          (unvisCount_visit_lt g st v hnodes hnvis (v :: st.stack))
          (Nat.lt_succ_iff.mp hfuel)⟩
    have hres := dfsSuccs_spec g fuel ih (succsOf g v) v _ hpre1
    rw [dfsVisit]
    dsimp only
    have hstk : (dfsSuccs (dfsVisit g fuel) v (succsOf g v)
        ⟨v :: st.visited, v :: st.stack, st.dead⟩).2.stack = v :: st.stack :=
      hres.stack_eq
    have herase : (dfsSuccs (dfsVisit g fuel) v (succsOf g v)
        ⟨v :: st.visited, v :: st.stack, st.dead⟩).2.stack.erase v = st.stack := by
      rw [hstk]
      exact List.erase_cons_head v st.stack
    have hvis' : v ∈ (dfsSuccs (dfsVisit g fuel) v (succsOf g v)
        ⟨v :: st.visited, v :: st.stack, st.dead⟩).2.visited :=
      hres.vis_mono v (List.mem_cons_self _ _)
    refine
      { good := ?_
        stack_eq := herase
        vis_mono := fun x hx => hres.vis_mono x (List.mem_cons_of_mem _ hx)
        v_vis := hvis'
        dead_mono := hres.dead_mono
        flag_iff := ?_
        stack_dead_stable := ?_ }
    · refine
        { stack_vis := by
            intro x hx
            rw [herase] at hx
            exact hres.good.stack_vis x (by rw [hstk]; exact List.mem_cons_of_mem _ hx)
          stack_nodup := by rw [herase]; exact hgs.stack_nodup
          stack_chain := by rw [herase]; exact hgs.stack_chain
          dead_vis := hres.good.dead_vis
          dead_sound := hres.good.dead_sound
          settled_complete := ?_ }
      intro x hx hnst hrc
      rw [herase] at hnst
      by_cases hxv : x = v
      · subst hxv
        by_contra hnd
        have hnone : ∀ w, EdgeRel g x w → ¬ ReachesCycle g w := by
          intro w hw hrcw
          rcases hres.covers w (mem_succsOf.mpr hw) with hd | hn
          · exact hnd hd
          · exact hn hrcw
        obtain ⟨w, hw, hrcw⟩ := (reachesCycle_iff_step x).mp hrc
        exact hnone w hw hrcw
      · exact hres.good.settled_complete x hx
          (by rw [hstk]; exact fun hmem => (List.mem_cons.mp hmem).elim hxv hnst) hrc
    · constructor
      · intro hb
        exact hres.flag_dead hb
      · intro hdead
        by_contra hb
        have hbf : (dfsSuccs (dfsVisit g fuel) v (succsOf g v)
            ⟨v :: st.visited, v :: st.stack, st.dead⟩).1 = false := by
          cases hr : (dfsSuccs (dfsVisit g fuel) v (succsOf g v)
              ⟨v :: st.visited, v :: st.stack, st.dead⟩).1
          · rfl
          · exact absurd hr hb
        have := hres.stack_dead_stable hbf v (List.mem_cons_self _ _) hdead
        exact hnvis (hgs.dead_vis v this)
    · intro hbf x hx hdead
      have := hres.stack_dead_stable hbf x (List.mem_cons_of_mem _ hx) hdead
      exact this

theorem dfsAll_spec (g : List (Nat × Nat)) (fuel : Nat)
    (hflt : (nodesOf g).length < fuel) :
    ∀ (ns : List Nat) (st : DfsSt), GoodSt g st → st.stack = [] →
      (∀ n ∈ ns, n ∈ nodesOf g) →
      GoodSt g (dfsAll g fuel ns st) ∧ (dfsAll g fuel ns st).stack = [] ∧
      (∀ n ∈ ns, n ∈ (dfsAll g fuel ns st).visited) ∧
      (∀ x ∈ st.visited, x ∈ (dfsAll g fuel ns st).visited) := by
  intro ns
  induction ns with
  | nil =>
    intro st hgs hstk _
    rw [dfsAll]
    exact ⟨hgs, hstk, fun n hn => absurd hn (List.not_mem_nil n), fun x hx => hx⟩
  | cons v rest ih =>
    intro st hgs hstk hns
    rw [dfsAll]
    by_cases hv : v ∈ st.visited
    · rw [if_pos hv]
      obtain ⟨h1, h2, h3, h4⟩ := ih st hgs hstk
        (fun n hn => hns n (List.mem_cons_of_mem _ hn))
      refine ⟨h1, h2, ?_, h4⟩
      intro n hn
      rcases List.mem_cons.mp hn with rfl | hn
      · exact h4 n hv
      · exact h3 n hn
    · rw [if_neg hv]
      have hvpost := dfsVisit_spec g fuel v st
        ⟨hgs, hv, hns v (List.mem_cons_self _ _),
          (fun h hh => by rw [hstk] at hh; cases hh),
          lt_of_le_of_lt (unvisCount_le g st) hflt⟩
      have hstk' : (dfsVisit g fuel v st).2.stack = [] := by
        rw [hvpost.stack_eq, hstk]
      obtain ⟨h1, h2, h3, h4⟩ := ih (dfsVisit g fuel v st).2 hvpost.good hstk'
        (fun n hn => hns n (List.mem_cons_of_mem _ hn))
      refine ⟨h1, h2, ?_, ?_⟩
      · intro n hn
        rcases List.mem_cons.mp hn with rfl | hn
        · exact h4 n hvpost.v_vis
        · exact h3 n hn
      · intro x hx
        exact h4 x (hvpost.vis_mono x hx)

/-- The deadlocked set of `_find_deadlocked_obligations` is exactly the set
of nodes of the filtered graph that are on a cycle or can reach one. -/
theorem find_deadlocked_iff (depEdges overrideSet : List (Nat × Nat)) (x : Nat) :
    x ∈ _find_deadlocked_obligations depEdges overrideSet ↔
      ReachesCycle (buildGraph depEdges overrideSet) x := by
  unfold _find_deadlocked_obligations
  have hginit : GoodSt (buildGraph depEdges overrideSet) ⟨[], [], []⟩ :=
    { stack_vis := fun x hx => absurd hx (List.not_mem_nil x)
      stack_nodup := List.nodup_nil
      stack_chain := List.chain'_nil
      dead_vis := fun x hx => absurd hx (List.not_mem_nil x)
      dead_sound := fun x hx => absurd hx (List.not_mem_nil x)
      settled_complete := fun x hx => absurd hx (List.not_mem_nil x) }
  obtain ⟨h1, h2, h3, -⟩ := dfsAll_spec (buildGraph depEdges overrideSet)
    ((nodesOf (buildGraph depEdges overrideSet)).length + 1)
    (Nat.lt_succ_self _) (nodesOf (buildGraph depEdges overrideSet)) ⟨[], [], []⟩
    hginit rfl (fun n hn => hn)
  constructor
  · intro hx
    exact h1.dead_sound x hx
  · intro hrc
    refine h1.settled_complete x (h3 x (rc_mem_nodesOf hrc)) ?_ hrc
    rw [h2]
    exact List.not_mem_nil x
/-- C5 — Deadlock detection: over the dependency graph with overridden edges
removed, the set marked deadlocked by `_find_deadlocked_obligations` is
exactly the nodes on a cycle together with every node that can reach a
cycle; for the 2-node cycle 1→2→1 with no overrides both nodes are reported
deadlocked, and overriding either one of the two edges empties the
deadlocked set. -/
theorem deadlocked_set_is_cycle_reachers :
    (∀ depEdges overrideSet x,
      x ∈ _find_deadlocked_obligations depEdges overrideSet ↔
        (OnCycle (buildGraph depEdges overrideSet) x ∨
          ∃ u, Reach (buildGraph depEdges overrideSet) x u ∧
            OnCycle (buildGraph depEdges overrideSet) u)) ∧
    ((1 : Nat) ∈ _find_deadlocked_obligations [(1, 2), (2, 1)] [] ∧
      (2 : Nat) ∈ _find_deadlocked_obligations [(1, 2), (2, 1)] []) ∧
    _find_deadlocked_obligations [(1, 2), (2, 1)] [(1, 2)] = [] ∧
    _find_deadlocked_obligations [(1, 2), (2, 1)] [(2, 1)] = [] := by
  refine ⟨?_, by decide, by decide, by decide⟩
  intro depEdges overrideSet x
  rw [find_deadlocked_iff]
  unfold ReachesCycle
  constructor
  · rintro ⟨u, hr, hc⟩
    exact Or.inr ⟨u, hr, hc⟩
  · rintro (hc | ⟨u, hr, hc⟩)
    · exact ⟨x, Relation.ReflTransGen.refl, hc⟩
    · exact ⟨u, hr, hc⟩
end Spec2Proof
